import Mathlib

/-!
Verification of the PContext core against its natural-language specification.

Each Python component named by the claims is shallowly embedded as executable
Lean definitions, translated from the source files:

* `src/core/resources.py`   — `ResourcePool`, `_LockBucket`, `ResourceGuard`
* `src/core/envs.py`        — `_normalize_packages`, `compute_deps_hash`,
                              `_CreationLock`, `ensure_environment`
* `src/pcontext/core/ipc.py`— `parse_service_line`, `ServiceSession`
* `src/core/services.py`    — `ServiceManager.get_or_start` / `request`
* `src/core/runner.py`      — `_parse_prefixed`, `run_one_shot`

Blocking primitives (semaphore waits, event waits, filesystem mkdir locks)
are abstracted by explicit oracles describing the outcome of each wait, and
thread interleavings are modelled as explicit schedules.
-/

namespace PContext

/-! ## ResourcePool (src/core/resources.py) -/

/-- Mirror of `_LockBucket`: one named capacity-bounded lock.
`capacity` and `inUse` mirror the fields `capacity` and `_in_use`;
the backing `threading.Semaphore` is represented by the derived figure
`capacity - inUse` together with the entry oracle passed to `try_acquire`. -/
structure LockBucket where
  capacity : Nat
  inUse : Nat
deriving Repr, DecidableEq

/-- Mirror of `ResourcePool` mutable state: `_default_capacity` plus the
`_buckets` dict (an insertion-ordered association list, like a Python dict). -/
structure PoolState where
  defaultCapacity : Nat
  buckets : List (String × LockBucket)
deriving Repr, DecidableEq

/-- Replace the binding of key `n` (or append it), mirroring `dict.__setitem__`. -/
def setAssoc : List (String × LockBucket) → String → LockBucket → List (String × LockBucket)
  | [], n, b => [(n, b)]
  | (k, v) :: rest, n, b =>
    if k = n then (n, b) :: rest else (k, v) :: setAssoc rest n b

/-- Key lookup in the bucket dict, mirroring `dict.get`. -/
def lookupName : List (String × LockBucket) → String → Option LockBucket
  | [], _ => none
  | (k, v) :: rest, n => if k = n then some v else lookupName rest n

def setBucket (st : PoolState) (n : String) (b : LockBucket) : PoolState :=
  { st with buckets := setAssoc st.buckets n b }

/-- `in_use` count of a named bucket; a bucket absent from the dict holds
nothing, so its count is 0. -/
def inUseCount (st : PoolState) (n : String) : Nat :=
  match lookupName st.buckets n with
  | some b => b.inUse
  | none => 0

/-- Mirror of `ResourcePool._ensure_bucket` with `cap=None`: an unknown name
lazily gets a bucket of `default_capacity`. -/
def ensureBucket (st : PoolState) (n : String) : LockBucket × PoolState :=
  match lookupName st.buckets n with
  | some b => (b, st)
  | none =>
    let b : LockBucket := ⟨st.defaultCapacity, 0⟩
    (b, setBucket st n b)

/-- Observable lock operations, used to state ordering properties. -/
inductive LockEvent where
  | acq (name : String)
  | rel (name : String)
deriving Repr, DecidableEq

/-- Errors raised by the pool: `ResourceTimeout` from `acquire`, and
`ResourceError("release overflow …")` from `_LockBucket.release`. -/
inductive ResExn where
  | resourceTimeout
  | resourceError (msg : String)
deriving Repr, DecidableEq

/-- Mirror of `_LockBucket.release`: raises on over-release, else decrements
`_in_use` (the semaphore permit return is implicit in the count). -/
def bucketRelease (b : LockBucket) : Except ResExn LockBucket :=
  if b.inUse = 0 then .error (.resourceError "release overflow")
  else .ok { b with inUse := b.inUse - 1 }

/-- Loop body of `ResourcePool._release_many` over an already-reversed list:
a missing bucket is skipped (`continue`), otherwise the bucket is released. -/
def releaseManyGo (st : PoolState) : List String → Except ResExn (PoolState × List LockEvent)
  | [] => .ok (st, [])
  | n :: rest =>
    match lookupName st.buckets n with
    | none => releaseManyGo st rest
    | some b =>
      match bucketRelease b with
      | .error e => .error e
      | .ok b' =>
        match releaseManyGo (setBucket st n b') rest with
        | .error e => .error e
        | .ok (st', evs) => .ok (st', .rel n :: evs)

/-- Mirror of `ResourcePool._release_many`: iterates `reversed(list(locks))`. -/
def releaseMany (st : PoolState) (locks : List String) :
    Except ResExn (PoolState × List LockEvent) :=
  releaseManyGo st locks.reverse

/-- Characters removed by Python `str.strip()` (the ASCII whitespace set). -/
def pySpace (c : Char) : Bool :=
  c.toNat = 32 || c.toNat = 9 || c.toNat = 10 || c.toNat = 13 || c.toNat = 11 || c.toNat = 12

/-- Python `str.strip()`: drop whitespace from both ends. -/
def pyStrip (s : String) : String :=
  ⟨((s.data.dropWhile pySpace).reverse.dropWhile pySpace).reverse⟩

/-- Python string comparison: lexicographic by code point (the order used by
`sorted` on `str`), expressed on the character lists. -/
def pyStrLe (a b : String) : Prop := a.data ≤ b.data

instance : DecidableRel pyStrLe := fun a b => inferInstanceAs (Decidable (a.data ≤ b.data))

instance : IsTotal String pyStrLe := ⟨fun a b => le_total a.data b.data⟩

instance : IsTrans String pyStrLe := ⟨fun _ _ _ h1 h2 => le_trans h1 h2⟩

instance : IsAntisymm String pyStrLe := ⟨fun a b h1 h2 => by
  cases a
  cases b
  exact congrArg String.mk (le_antisymm h1 h2)⟩

/-- Mirror of `sorted({str(x).strip() for x in locks if str(x).strip()})`:
strip every name, drop blanks, deduplicate (set semantics), sort. -/
def requestedNames (locks : List String) : List String :=
  List.insertionSort pyStrLe (((locks.map pyStrip).filter (fun s => s ≠ "")).dedup)

/-- Loop of `ResourcePool.try_acquire` over the sorted unique names.
`grant n` abstracts the outcome of `b.acquire(timeout=remaining)`: whether
the semaphore of bucket `n` admits this caller before the shared deadline
(`false` both when the deadline is already exhausted and when the wait times
out).  On a refused bucket all previously acquired names are rolled back via
`_release_many` and `None` is reported. -/
def tryAcquireGo (grant : String → Bool) (st : PoolState) (acquired : List String) :
    List String → Except ResExn (Option (List String) × PoolState × List LockEvent)
  | [] => .ok (some acquired, st, [])
  | n :: rest =>
    let (b, st1) := ensureBucket st n
    if grant n then
      match tryAcquireGo grant (setBucket st1 n { b with inUse := b.inUse + 1 })
          (acquired ++ [n]) rest with
      | .error e => .error e
      | .ok (res, st', evs) => .ok (res, st', .acq n :: evs)
    else
      match releaseMany st1 acquired with
      | .error e => .error e
      | .ok (st', evs) => .ok (none, st', evs)

/-- Mirror of `ResourcePool.try_acquire`.  Returns the guard's lock list
(`ResourceGuard.locks`) on success, `none` on timeout, plus the final pool
state and the chronological trace of lock operations.  An empty request list
returns an empty guard at once (`if not locks: return ResourceGuard(self, [])`). -/
def try_acquire (grant : String → Bool) (st : PoolState) (locks : List String) :
    Except ResExn (Option (List String) × PoolState × List LockEvent) :=
  if locks = [] then .ok (some [], st, [])
  else tryAcquireGo grant st [] (requestedNames locks)

/-- Mirror of `ResourcePool.acquire`: like `try_acquire` but raises
`ResourceTimeout` when the guard is `None`. -/
def acquire (grant : String → Bool) (st : PoolState) (locks : List String) :
    Except ResExn (List String × PoolState × List LockEvent) :=
  match try_acquire grant st locks with
  | .error e => .error e
  | .ok (none, _, _) => .error .resourceTimeout
  | .ok (some g, st', evs) => .ok (g, st', evs)

/-- Names of the acquisition events of a trace, in order. -/
def acqNames (evs : List LockEvent) : List String :=
  evs.filterMap fun e => match e with | .acq n => some n | .rel _ => none

/-- Names of the release events of a trace, in order. -/
def relNames (evs : List LockEvent) : List String :=
  evs.filterMap fun e => match e with | .rel n => some n | .acq _ => none

lemma lookup_setAssoc (l : List (String × LockBucket)) (n m : String) (b : LockBucket) :
    lookupName (setAssoc l n b) m = if n = m then some b else lookupName l m := by
  induction l with
  | nil => simp [setAssoc, lookupName]
  | cons kv rest ih =>
    obtain ⟨k, v⟩ := kv
    by_cases hkn : k = n
    · subst hkn
      by_cases hkm : k = m <;> simp [setAssoc, lookupName, hkm]
    · have hsa : setAssoc ((k, v) :: rest) n b = (k, v) :: setAssoc rest n b := by
        simp [setAssoc, hkn]
      rw [hsa]
      by_cases hkm : k = m
      · subst hkm
        have hnm : ¬ n = k := fun h => hkn h.symm
        simp [lookupName, hnm]
      · simp [lookupName, hkm, ih]

lemma inUseCount_setBucket (st : PoolState) (n m : String) (b : LockBucket) :
    inUseCount (setBucket st n b) m = if m = n then b.inUse else inUseCount st m := by
  by_cases h : m = n
  · subst h
    simp [inUseCount, setBucket, lookup_setAssoc]
  · have hnm : ¬ n = m := fun hh => h hh.symm
    simp [inUseCount, setBucket, lookup_setAssoc, h, hnm]

lemma ensureBucket_inUse (st : PoolState) (n : String) :
    (ensureBucket st n).1.inUse = inUseCount st n := by
  unfold ensureBucket inUseCount
  cases h : lookupName st.buckets n <;> simp

lemma ensureBucket_count (st : PoolState) (n m : String) :
    inUseCount (ensureBucket st n).2 m = inUseCount st m := by
  unfold ensureBucket
  cases h : lookupName st.buckets n with
  | some b => simp
  | none =>
    show inUseCount (setBucket st n ⟨st.defaultCapacity, 0⟩) m = inUseCount st m
    rw [inUseCount_setBucket]
    by_cases hmn : m = n
    · subst hmn
      simp [inUseCount, h]
    · rw [if_neg hmn]

lemma ensureBucket_lookup (st : PoolState) (n : String) :
    lookupName ((ensureBucket st n).2).buckets n = some (ensureBucket st n).1 := by
  unfold ensureBucket
  cases h : lookupName st.buckets n with
  | some b => simpa using h
  | none =>
    show lookupName (setBucket st n ⟨st.defaultCapacity, 0⟩).buckets n
        = some ⟨st.defaultCapacity, 0⟩
    simp [setBucket, lookup_setAssoc]

/-- `_release_many` over a duplicate-free list of names whose buckets are all
held at least once: succeeds, emits one release event per name in iteration
order, and decrements exactly those in-use counts. -/
lemma releaseManyGo_spec (locks : List String) : ∀ st : PoolState,
    locks.Nodup →
    (∀ a ∈ locks, 1 ≤ inUseCount st a) →
    ∃ st' evs, releaseManyGo st locks = .ok (st', evs) ∧
      evs = locks.map .rel ∧
      (∀ m, inUseCount st' m + (if m ∈ locks then 1 else 0) = inUseCount st m) := by
  induction locks with
  | nil =>
    intro st _ _
    exact ⟨st, [], rfl, rfl, by simp⟩
  | cons n rest ih =>
    intro st hnd hheld
    have hn : 1 ≤ inUseCount st n := hheld n (by simp)
    obtain ⟨b, hb⟩ : ∃ b, lookupName st.buckets n = some b := by
      cases h : lookupName st.buckets n with
      | some b => exact ⟨b, rfl⟩
      | none =>
        exfalso
        have h0 : inUseCount st n = 0 := by simp [inUseCount, h]
        omega
    have hbin : 1 ≤ b.inUse := by
      simpa [inUseCount, hb] using hn
    have hrel : bucketRelease b = .ok { b with inUse := b.inUse - 1 } := by
      unfold bucketRelease
      rw [if_neg (by omega)]
    have hnotrest : n ∉ rest := (List.nodup_cons.mp hnd).1
    have hndrest : rest.Nodup := (List.nodup_cons.mp hnd).2
    set st1 := setBucket st n { b with inUse := b.inUse - 1 } with hst1
    have hcount1 : ∀ m, inUseCount st1 m
        = if m = n then b.inUse - 1 else inUseCount st m := by
      intro m
      simp [hst1, inUseCount_setBucket]
    have hheld1 : ∀ a ∈ rest, 1 ≤ inUseCount st1 a := by
      intro a ha
      have hne : a ≠ n := fun h => hnotrest (h ▸ ha)
      rw [hcount1 a, if_neg hne]
      exact hheld a (by simp [ha])
    obtain ⟨st', evs, heq, hevs, hcount⟩ := ih st1 hndrest hheld1
    refine ⟨st', .rel n :: evs, ?_, by simp [hevs], ?_⟩
    · simp only [releaseManyGo, hb, hrel, heq]
    · intro m
      by_cases hmn : m = n
      · subst hmn
        have h1 := hcount m
        rw [if_neg hnotrest, hcount1 m, if_pos rfl] at h1
        have hstm : inUseCount st m = b.inUse := by simp [inUseCount, hb]
        rw [if_pos (by simp), hstm]
        omega
      · have h1 := hcount m
        rw [hcount1 m, if_neg hmn] at h1
        by_cases hmr : m ∈ rest
        · rw [if_pos hmr] at h1
          rw [if_pos (by simp [hmr])]
          exact h1
        · rw [if_neg hmr] at h1
          rw [if_neg (by simp [hmn, hmr])]
          exact h1

/-- Behaviour of the `try_acquire` loop.  Starting from a pool in which every
name of `acquired` is held once by this call, either every remaining name is
granted — the guard lists `acquired ++ names`, one acquisition event per name
in order, each listed count incremented — or some name is refused and the
whole partial acquisition is rolled back in reverse order, restoring all
counts to their values minus the caller's prior holds. -/
lemma tryAcquireGo_spec (grant : String → Bool) (names : List String) :
    ∀ (st : PoolState) (acquired : List String),
    (acquired ++ names).Nodup →
    (∀ a ∈ acquired, 1 ≤ inUseCount st a) →
    (∃ st' evs, tryAcquireGo grant st acquired names
        = .ok (some (acquired ++ names), st', evs) ∧
        evs = names.map .acq ∧
        (∀ m, inUseCount st' m = inUseCount st m + (if m ∈ names then 1 else 0)) ∧
        (∀ a ∈ acquired ++ names, 1 ≤ inUseCount st' a)) ∨
    (∃ st' evs k, tryAcquireGo grant st acquired names = .ok (none, st', evs) ∧
        evs = (names.take k).map .acq ++ ((acquired ++ names.take k).reverse).map .rel ∧
        (∀ m, inUseCount st' m + (if m ∈ acquired then 1 else 0) = inUseCount st m)) := by
  induction names with
  | nil =>
    intro st acquired hnd hheld
    left
    refine ⟨st, [], by simp [tryAcquireGo], rfl, by simp, by simpa using hheld⟩
  | cons n rest ih =>
    intro st acquired hnd hheld
    rcases hE : ensureBucket st n with ⟨b, st1⟩
    have h1 : (ensureBucket st n).1 = b := by rw [hE]
    have h2 : (ensureBucket st n).2 = st1 := by rw [hE]
    have hc1 : ∀ m, inUseCount st1 m = inUseCount st m := by
      intro m
      rw [← h2]
      exact ensureBucket_count st n m
    have hbi : b.inUse = inUseCount st n := by
      rw [← h1]
      exact ensureBucket_inUse st n
    obtain ⟨d1, d2, hdisj⟩ := List.nodup_append.mp hnd
    have hn_nacq : n ∉ acquired := fun hmem => hdisj hmem (List.mem_cons_self n rest)
    have hn_nrest : n ∉ rest := (List.nodup_cons.mp d2).1
    by_cases hg : grant n = true
    · set st2 := setBucket st1 n { b with inUse := b.inUse + 1 } with hst2
      have hc2 : ∀ m, inUseCount st2 m
          = if m = n then b.inUse + 1 else inUseCount st m := by
        intro m
        rw [hst2, inUseCount_setBucket]
        by_cases hmn : m = n
        · simp [hmn]
        · simp [hmn, hc1]
      have hnd' : ((acquired ++ [n]) ++ rest).Nodup := by
        rw [List.append_assoc, List.singleton_append]
        exact hnd
      have hheld' : ∀ a ∈ acquired ++ [n], 1 ≤ inUseCount st2 a := by
        intro a ha
        rcases List.mem_append.mp ha with hac | hone
        · have hne : a ≠ n := fun h => hn_nacq (h ▸ hac)
          rw [hc2 a, if_neg hne]
          exact hheld a hac
        · have : a = n := List.mem_singleton.mp hone
          subst this
          rw [hc2 a, if_pos rfl]
          omega
      rcases ih st2 (acquired ++ [n]) hnd' hheld' with
        ⟨st', evs, heq, hevs, hcnt, hge⟩ | ⟨st', evs, k, heq, hevs, hcnt⟩
      · left
        refine ⟨st', .acq n :: evs, ?_, by simp [hevs], ?_, ?_⟩
        · simp only [tryAcquireGo, hE, hg, if_true]
          rw [← hst2, heq]
          simp [List.append_assoc]
        · intro m
          by_cases hmn : m = n
          · subst hmn
            have hthis := hcnt m
            rw [if_neg hn_nrest, hc2 m, if_pos rfl] at hthis
            rw [hthis, ← hbi]
            simp
          · have hthis := hcnt m
            rw [hc2 m, if_neg hmn] at hthis
            rw [hthis]
            simp [List.mem_cons, hmn]
        · intro a ha
          apply hge
          rw [List.append_assoc, List.singleton_append]
          exact ha
      · right
        refine ⟨st', .acq n :: evs, k + 1, ?_, ?_, ?_⟩
        · simp only [tryAcquireGo, hE, hg, if_true]
          rw [← hst2, heq]
        · rw [hevs]
          simp [List.append_assoc]
        · intro m
          by_cases hmn : m = n
          · subst hmn
            have hthis := hcnt m
            rw [if_pos (by simp), hc2 m, if_pos rfl] at hthis
            rw [if_neg hn_nacq, ← hbi]
            omega
          · have hthis := hcnt m
            rw [hc2 m, if_neg hmn] at hthis
            by_cases hma : m ∈ acquired
            · rw [if_pos (by simp [hma])] at hthis
              rw [if_pos hma]
              exact hthis
            · rw [if_neg (by simp [hma, hmn])] at hthis
              rw [if_neg hma]
              exact hthis
    · have hgf : grant n = false := by
        simpa using hg
      have hheld1 : ∀ a ∈ acquired.reverse, 1 ≤ inUseCount st1 a := by
        intro a ha
        rw [hc1 a]
        exact hheld a (List.mem_reverse.mp ha)
      obtain ⟨st', evs, heq, hevs, hcnt⟩ :=
        releaseManyGo_spec acquired.reverse st1 (List.nodup_reverse.mpr d1) hheld1
      right
      refine ⟨st', evs, 0, ?_, by simp [hevs], ?_⟩
      · simp only [tryAcquireGo, hE]
        rw [if_neg (by simp [hgf])]
        unfold releaseMany
        rw [heq]
      · intro m
        have hthis := hcnt m
        rw [hc1 m] at hthis
        by_cases hma : m ∈ acquired
        · rw [if_pos (List.mem_reverse.mpr hma)] at hthis
          rw [if_pos hma]
          exact hthis
        · rw [if_neg (fun h => hma (List.mem_reverse.mp h))] at hthis
          rw [if_neg hma]
          exact hthis

lemma requestedNames_nodup (locks : List String) : (requestedNames locks).Nodup := by
  unfold requestedNames
  exact ((List.perm_insertionSort _ _).nodup_iff).mpr (List.nodup_dedup _)

lemma requestedNames_sorted (locks : List String) :
    (requestedNames locks).Sorted pyStrLe :=
  List.sorted_insertionSort pyStrLe _

lemma requestedNames_mem (locks : List String) (n : String) :
    n ∈ requestedNames locks ↔ (n ≠ "" ∧ ∃ x ∈ locks, pyStrip x = n) := by
  unfold requestedNames
  rw [(List.perm_insertionSort _ _).mem_iff]
  simp only [List.mem_dedup, List.mem_filter, List.mem_map, ne_eq, decide_not,
    Bool.not_eq_true', decide_eq_false_iff_not]
  tauto

lemma requestedNames_eq_nil (locks : List String) :
    requestedNames locks = [] ↔ ∀ x ∈ locks, pyStrip x = "" := by
  constructor
  · intro h x hx
    by_contra hne
    have hmem : pyStrip x ∈ requestedNames locks :=
      (requestedNames_mem locks (pyStrip x)).mpr ⟨hne, x, hx, rfl⟩
    rw [h] at hmem
    exact absurd hmem (List.not_mem_nil _)
  · intro h
    refine List.eq_nil_iff_forall_not_mem.mpr fun n hn => ?_
    obtain ⟨hne, x, hx, hxe⟩ := (requestedNames_mem locks n).mp hn
    exact hne (hxe ▸ h x hx)

lemma acqNames_map_acq (ns : List String) : acqNames (ns.map .acq) = ns := by
  induction ns with
  | nil => rfl
  | cons n rest ih => simpa [acqNames, List.filterMap_cons] using ih

lemma acqNames_map_rel (ns : List String) : acqNames (ns.map .rel) = [] := by
  induction ns with
  | nil => rfl
  | cons n rest ih => simp [acqNames, List.filterMap_cons]

lemma relNames_map_rel (ns : List String) : relNames (ns.map .rel) = ns := by
  induction ns with
  | nil => rfl
  | cons n rest ih => simpa [relNames, List.filterMap_cons] using ih

lemma relNames_map_acq (ns : List String) : relNames (ns.map .acq) = [] := by
  induction ns with
  | nil => rfl
  | cons n rest ih => simp [relNames, List.filterMap_cons]

lemma acqNames_append (a b : List LockEvent) :
    acqNames (a ++ b) = acqNames a ++ acqNames b :=
  List.filterMap_append _ _ _

lemma relNames_append (a b : List LockEvent) :
    relNames (a ++ b) = relNames a ++ relNames b :=
  List.filterMap_append _ _ _

instance {ε α : Type} [DecidableEq ε] [DecidableEq α] : DecidableEq (Except ε α) :=
  fun a b =>
    match a, b with
    | .ok x, .ok y =>
      if h : x = y then .isTrue (by rw [h]) else .isFalse (by intro hc; cases hc; exact h rfl)
    | .error x, .error y =>
      if h : x = y then .isTrue (by rw [h]) else .isFalse (by intro hc; cases hc; exact h rfl)
    | .ok _, .error _ => .isFalse (by intro hc; cases hc)
    | .error _, .ok _ => .isFalse (by intro hc; cases hc)

/-- **C6** — `ResourcePool` acquisition is all-or-nothing under the shared
deadline: whenever `try_acquire` fails (some bucket was refused before the
deadline and the call returns `None`), every bucket acquired earlier in that
same call has been released before it returns — no bucket's in-use count
differs from before the call — and `acquire` reports the failure by raising
`ResourceTimeout`. -/
theorem c6_all_or_nothing (grant : String → Bool) (st st' : PoolState)
    (locks : List String) (evs : List LockEvent)
    (h : try_acquire grant st locks = .ok (none, st', evs)) :
    (∀ m, inUseCount st' m = inUseCount st m) ∧
    acquire grant st locks = .error .resourceTimeout := by
  constructor
  · intro m
    unfold try_acquire at h
    by_cases hl : locks = []
    · rw [if_pos hl] at h
      simp at h
    · rw [if_neg hl] at h
      rcases tryAcquireGo_spec grant (requestedNames locks) st []
          (by simpa using requestedNames_nodup locks) (by simp) with
        ⟨st2, evs2, heq, _, _, _⟩ | ⟨st2, evs2, k, heq, _, hcnt⟩
      · rw [heq] at h
        simp at h
      · rw [heq] at h
        simp only [Except.ok.injEq, Prod.mk.injEq] at h
        obtain ⟨-, h2, -⟩ := h
        subst h2
        simpa using hcnt m
  · unfold acquire
    rw [h]

/-- Witness for C6: a pool whose single-capacity bucket `"GPU"` is already
held; the semaphore refuses entry before the deadline, `try_acquire` returns
`None` with the pool unchanged, and `acquire` raises `ResourceTimeout`. -/
theorem c6_witness :
    try_acquire (fun _ => false) ⟨1, [("GPU", ⟨1, 1⟩)]⟩ ["GPU"]
      = .ok (none, ⟨1, [("GPU", ⟨1, 1⟩)]⟩, []) ∧
    ((∀ m, inUseCount ⟨1, [("GPU", ⟨1, 1⟩)]⟩ m = inUseCount ⟨1, [("GPU", ⟨1, 1⟩)]⟩ m) ∧
      acquire (fun _ => false) ⟨1, [("GPU", ⟨1, 1⟩)]⟩ ["GPU"] = .error .resourceTimeout) :=
  ⟨by decide, c6_all_or_nothing (fun _ => false) ⟨1, [("GPU", ⟨1, 1⟩)]⟩
    ⟨1, [("GPU", ⟨1, 1⟩)]⟩ ["GPU"] [] (by decide)⟩

/-- **C7** — for every call to `try_acquire`/`acquire`, bucket acquisitions
happen in sorted name order (the deadlock-avoidance invariant: the same
global order for every caller), and releases — rollback on failure as well
as guard release — proceed in reverse acquisition order. -/
theorem c7_acquisition_order (grant : String → Bool) (st : PoolState)
    (locks : List String) :
    ∃ res st' evs, try_acquire grant st locks = .ok (res, st', evs) ∧
      (acqNames evs).Sorted pyStrLe ∧
      (res = none → relNames evs = (acqNames evs).reverse) ∧
      (∀ g, res = some g → relNames evs = [] ∧ g = acqNames evs ∧
        ∃ st'' evs', releaseMany st' g = .ok (st'', evs') ∧
          relNames evs' = g.reverse) := by
  by_cases hl : locks = []
  · refine ⟨some [], st, [], ?_, ?_, ?_, ?_⟩
    · unfold try_acquire
      rw [if_pos hl]
    · simp [acqNames]
    · intro hcontra
      simp at hcontra
    · intro g hg
      have hge : g = [] := (Option.some.inj hg).symm
      subst hge
      exact ⟨rfl, by simp [acqNames], st, [], rfl, rfl⟩
  · rcases tryAcquireGo_spec grant (requestedNames locks) st []
        (by simpa using requestedNames_nodup locks) (by simp) with
      ⟨st', evs, heq, hevs, _, hge⟩ | ⟨st', evs, k, heq, hevs, _⟩
    · refine ⟨some (requestedNames locks), st', evs, ?_, ?_, ?_, ?_⟩
      · unfold try_acquire
        rw [if_neg hl]
        simpa using heq
      · rw [hevs, acqNames_map_acq]
        exact requestedNames_sorted locks
      · intro hcontra
        simp at hcontra
      · intro g hg
        have hgeq : g = requestedNames locks := (Option.some.inj hg).symm
        subst hgeq
        refine ⟨by rw [hevs, relNames_map_acq], by rw [hevs, acqNames_map_acq], ?_⟩
        have hheld : ∀ a ∈ (requestedNames locks).reverse, 1 ≤ inUseCount st' a := by
          intro a ha
          exact hge a (by simpa using List.mem_reverse.mp ha)
        obtain ⟨st'', evs', heq', hevs', _⟩ :=
          releaseManyGo_spec (requestedNames locks).reverse st'
            (List.nodup_reverse.mpr (requestedNames_nodup locks)) hheld
        exact ⟨st'', evs', heq', by rw [hevs', relNames_map_rel]⟩
    · refine ⟨none, st', evs, ?_, ?_, ?_, ?_⟩
      · unfold try_acquire
        rw [if_neg hl]
        exact heq
      · rw [hevs, List.nil_append, acqNames_append, acqNames_map_acq, acqNames_map_rel,
          List.append_nil]
        exact List.Pairwise.sublist (List.take_sublist _ _) (requestedNames_sorted locks)
      · intro _
        rw [hevs, List.nil_append, relNames_append, relNames_map_acq, relNames_map_rel,
          acqNames_append, acqNames_map_acq, acqNames_map_rel, List.append_nil,
          List.nil_append]
      · intro g hg
        simp at hg

/-- **C10** — the set of buckets actually acquired equals the set of
distinct, whitespace-stripped, non-blank names in the requested list, and an
empty (or all-blank) request returns a guard holding no locks immediately —
no lock events, pool unchanged — regardless of bucket occupancy. -/
theorem c10_acquired_set (grant : String → Bool) (st : PoolState)
    (locks : List String) :
    ∃ res st' evs, try_acquire grant st locks = .ok (res, st', evs) ∧
      (∀ g, res = some g → g.Nodup ∧
        (∀ n, n ∈ g ↔ (n ≠ "" ∧ ∃ x ∈ locks, pyStrip x = n))) ∧
      ((∀ x ∈ locks, pyStrip x = "") → res = some [] ∧ st' = st ∧ evs = []) := by
  by_cases hl : locks = []
  · refine ⟨some [], st, [], ?_, ?_, fun _ => ⟨rfl, rfl, rfl⟩⟩
    · unfold try_acquire
      rw [if_pos hl]
    · intro g hg
      have hge : g = [] := (Option.some.inj hg).symm
      subst hge hl
      simp
  · by_cases hrn : requestedNames locks = []
    · refine ⟨some [], st, [], ?_, ?_, fun _ => ⟨rfl, rfl, rfl⟩⟩
      · unfold try_acquire
        rw [if_neg hl, hrn]
        rfl
      · intro g hg
        have hge : g = [] := (Option.some.inj hg).symm
        subst hge
        refine ⟨List.nodup_nil, fun n => ?_⟩
        simp only [List.not_mem_nil, false_iff]
        intro ⟨hne, x, hx, hxe⟩
        exact hne (hxe ▸ (requestedNames_eq_nil locks).mp hrn x hx)
    · rcases tryAcquireGo_spec grant (requestedNames locks) st []
          (by simpa using requestedNames_nodup locks) (by simp) with
        ⟨st', evs, heq, _, _, _⟩ | ⟨st', evs, k, heq, _, _⟩
      · refine ⟨some (requestedNames locks), st', evs, ?_, ?_, ?_⟩
        · unfold try_acquire
          rw [if_neg hl]
          simpa using heq
        · intro g hg
          have hgeq : g = requestedNames locks := (Option.some.inj hg).symm
          subst hgeq
          exact ⟨requestedNames_nodup locks, fun n => requestedNames_mem locks n⟩
        · intro hblank
          exact absurd ((requestedNames_eq_nil locks).mpr hblank) hrn
      · refine ⟨none, st', evs, ?_, ?_, ?_⟩
        · unfold try_acquire
          rw [if_neg hl]
          exact heq
        · intro g hg
          simp at hg
        · intro hblank
          exact absurd ((requestedNames_eq_nil locks).mpr hblank) hrn

/-! ## Environment provisioner (src/core/envs.py) -/

/-- Python `str.lower()` (restricted to its ASCII action, which is all the
hash inputs exercise): lowercase every character. -/
def pyLower (s : String) : String := ⟨s.data.map Char.toLower⟩

/-- The trimmed non-blank entries of a package list — the elements considered
by the `_normalize_packages` loop after `strip()` and the blank filter. -/
def cleanedPackages (packages : List String) : List String :=
  (packages.map pyStrip).filter (fun s => s ≠ "")

/-- Loop of `_normalize_packages`: strip each entry, skip blanks, skip
entries whose lowercased form is already in `seen`, otherwise emit the entry
*with its original casing* and record its lowercased key. -/
def normalizeGo (seen : List String) : List String → List String
  | [] => []
  | p :: rest =>
    let s := pyStrip p
    if s = "" then normalizeGo seen rest
    else if pyLower s ∈ seen then normalizeGo seen rest
    else s :: normalizeGo (pyLower s :: seen) rest

/-- The comparison realising `items.sort(key=lambda x: x.lower())`: compare
lowercased forms, code point by code point.  Python's sort is stable; after
the case-insensitive deduplication above no two items share a lowercased
form, so ties never arise and the string-order tie-break added here (to make
the relation antisymmetric) is never exercised by `_normalize_packages`. -/
def pyKeyLe (a b : String) : Prop :=
  (pyLower a).data < (pyLower b).data ∨
    ((pyLower a).data = (pyLower b).data ∧ a.data ≤ b.data)

instance : DecidableRel pyKeyLe := fun _ _ =>
  inferInstanceAs (Decidable (_ ∨ _))

instance : IsTotal String pyKeyLe := ⟨fun a b => by
  rcases lt_trichotomy (pyLower a).data (pyLower b).data with h | h | h
  · exact .inl (.inl h)
  · rcases le_total a.data b.data with h2 | h2
    · exact .inl (.inr ⟨h, h2⟩)
    · exact .inr (.inr ⟨h.symm, h2⟩)
  · exact .inr (.inl h)⟩

instance : IsTrans String pyKeyLe := ⟨fun a b c h1 h2 => by
  rcases h1 with h1 | ⟨h1e, h1le⟩
  · rcases h2 with h2 | ⟨h2e, _⟩
    · exact .inl (lt_trans h1 h2)
    · exact .inl (h2e ▸ h1)
  · rcases h2 with h2 | ⟨h2e, h2le⟩
    · exact .inl (h1e ▸ h2)
    · exact .inr ⟨h1e.trans h2e, le_trans h1le h2le⟩⟩

instance : IsAntisymm String pyKeyLe := ⟨fun a b h1 h2 => by
  rcases h1 with h1 | ⟨h1e, h1le⟩
  · rcases h2 with h2 | ⟨h2e, _⟩
    · exact absurd h2 (lt_asymm h1)
    · exact absurd h1 (h2e ▸ lt_irrefl _)
  · rcases h2 with h2 | ⟨_, h2le⟩
    · exact absurd h2 (h1e ▸ lt_irrefl _)
    · cases a
      cases b
      exact congrArg String.mk (le_antisymm h1le h2le)⟩

/-- Mirror of `_normalize_packages`: dedup case-insensitively keeping the
first spelling and original casing, then sort by the lowercased key. -/
def normalize_packages (packages : List String) : List String :=
  List.insertionSort pyKeyLe (normalizeGo [] packages)

/-! SHA-1, executable, over byte lists (`hashlib.sha1`).  Machine words are
`Nat` reduced `% 2^32` wherever overflow matters. -/

/-- UTF-8 encoding of one code point. -/
def utf8EncodeChar (c : Char) : List Nat :=
  let n := c.toNat
  if n < 128 then [n]
  else if n < 2048 then [192 ||| (n >>> 6), 128 ||| (n &&& 63)]
  else if n < 65536 then
    [224 ||| (n >>> 12), 128 ||| ((n >>> 6) &&& 63), 128 ||| (n &&& 63)]
  else
    [240 ||| (n >>> 18), 128 ||| ((n >>> 12) &&& 63),
     128 ||| ((n >>> 6) &&& 63), 128 ||| (n &&& 63)]

/-- `str.encode("utf-8")`. -/
def utf8Bytes (s : String) : List Nat := (s.data.map utf8EncodeChar).flatten

def rotl32 (n x : Nat) : Nat := ((x <<< n) ||| (x >>> (32 - n))) % 4294967296

/-- SHA-1 padding: append `0x80`, zeros to 56 mod 64, 8-byte big-endian bit
length. -/
def sha1Pad (msg : List Nat) : List Nat :=
  let ml := msg.length * 8
  let z := (120 - ((msg.length + 1) % 64)) % 64
  msg ++ [128] ++ List.replicate z 0 ++
    [(ml >>> 56) &&& 255, (ml >>> 48) &&& 255, (ml >>> 40) &&& 255, (ml >>> 32) &&& 255,
     (ml >>> 24) &&& 255, (ml >>> 16) &&& 255, (ml >>> 8) &&& 255, ml &&& 255]

/-- Big-endian 4-byte groups to 32-bit words. -/
def bytesToWords : List Nat → List Nat
  | b0 :: b1 :: b2 :: b3 :: rest => (((b0 * 256 + b1) * 256 + b2) * 256 + b3) :: bytesToWords rest
  | _ => []

/-- Message-schedule expansion from 16 to 80 words. -/
def sha1Expand (w : List Nat) : Nat → List Nat
  | 0 => w
  | f + 1 =>
    let i := w.length
    let wi := rotl32 1 ((w.getD (i - 3) 0) ^^^ (w.getD (i - 8) 0) ^^^
      (w.getD (i - 14) 0) ^^^ (w.getD (i - 16) 0))
    sha1Expand (w ++ [wi]) f

def sha1F (t b c d : Nat) : Nat :=
  if t < 20 then (b &&& c) ||| ((4294967295 ^^^ b) &&& d)
  else if t < 40 then b ^^^ c ^^^ d
  else if t < 60 then (b &&& c) ||| (b &&& d) ||| (c &&& d)
  else b ^^^ c ^^^ d

def sha1K (t : Nat) : Nat :=
  if t < 20 then 1518500249
  else if t < 40 then 1859775393
  else if t < 60 then 2400959708
  else 3395469782

def sha1RoundsGo : List Nat → Nat → Nat × Nat × Nat × Nat × Nat → Nat × Nat × Nat × Nat × Nat
  | [], _, st => st
  | wt :: rest, t, (a, b, c, d, e) =>
    let temp := (rotl32 5 a + sha1F t b c d + e + sha1K t + wt) % 4294967296
    sha1RoundsGo rest (t + 1) (temp, a, rotl32 30 b, c, d)

def sha1ChunksGo : Nat → List Nat → Nat × Nat × Nat × Nat × Nat → Nat × Nat × Nat × Nat × Nat
  | 0, _, h => h
  | _ + 1, [], h => h
  | f + 1, bytes, (h0, h1, h2, h3, h4) =>
    let w := sha1Expand (bytesToWords (bytes.take 64)) 64
    let (a, b, c, d, e) := sha1RoundsGo w 0 (h0, h1, h2, h3, h4)
    sha1ChunksGo f (bytes.drop 64)
      ((h0 + a) % 4294967296, (h1 + b) % 4294967296, (h2 + c) % 4294967296,
       (h3 + d) % 4294967296, (h4 + e) % 4294967296)

def hexDigit (n : Nat) : Char :=
  if n < 10 then Char.ofNat (48 + n) else Char.ofNat (87 + n)

def wordHex (w : Nat) : List Char :=
  [hexDigit ((w >>> 28) &&& 15), hexDigit ((w >>> 24) &&& 15), hexDigit ((w >>> 20) &&& 15),
   hexDigit ((w >>> 16) &&& 15), hexDigit ((w >>> 12) &&& 15), hexDigit ((w >>> 8) &&& 15),
   hexDigit ((w >>> 4) &&& 15), hexDigit (w &&& 15)]

/-- `hashlib.sha1(data).hexdigest()`. -/
def sha1Hex (msg : List Nat) : String :=
  let padded := sha1Pad msg
  let h := sha1ChunksGo (padded.length) padded
    (1732584193, 4023233417, 2562383102, 271733878, 3285377520)
  ⟨wordHex h.1 ++ wordHex h.2.1 ++ wordHex h.2.2.1 ++ wordHex h.2.2.2.1 ++ wordHex h.2.2.2.2⟩

/-- Mirror of `compute_deps_hash`: normalized package list joined under the
interpreter id, SHA-1, 12-character prefix, prefixed by the interpreter id. -/
def compute_deps_hash (packages : List String) (python_id : String) : String :=
  let pkgs := normalize_packages packages
  let data := python_id ++ "\n" ++ String.intercalate "\n" pkgs
  python_id ++ "-" ++ ⟨(sha1Hex (utf8Bytes data)).data.take 12⟩

lemma cleanedPackages_cons (p : String) (rest : List String) :
    cleanedPackages (p :: rest)
      = if pyStrip p = "" then cleanedPackages rest
        else pyStrip p :: cleanedPackages rest := by
  by_cases hs : pyStrip p = "" <;> simp [cleanedPackages, List.filter_cons, hs]

lemma normalizeGo_lower_not_seen (l : List String) :
    ∀ seen x, x ∈ normalizeGo seen l → pyLower x ∉ seen := by
  induction l with
  | nil =>
    intro seen x h
    simp [normalizeGo] at h
  | cons p rest ih =>
    intro seen x h
    simp only [normalizeGo] at h
    by_cases hs : pyStrip p = ""
    · rw [if_pos hs] at h
      exact ih seen x h
    · rw [if_neg hs] at h
      by_cases hseen : pyLower (pyStrip p) ∈ seen
      · rw [if_pos hseen] at h
        exact ih seen x h
      · rw [if_neg hseen] at h
        rcases List.mem_cons.mp h with hx | hx
        · subst hx
          exact hseen
        · intro hc
          exact ih _ x hx (List.mem_cons.mpr (.inr hc))

lemma normalizeGo_mem (l : List String)
    (hcons : ∀ x ∈ cleanedPackages l, ∀ y ∈ cleanedPackages l,
      pyLower x = pyLower y → x = y) :
    ∀ seen x, x ∈ normalizeGo seen l ↔ (x ∈ cleanedPackages l ∧ pyLower x ∉ seen) := by
  induction l with
  | nil =>
    intro seen x
    simp [normalizeGo, cleanedPackages]
  | cons p rest ih =>
    have hmemrest : ∀ z ∈ cleanedPackages rest, z ∈ cleanedPackages (p :: rest) := by
      intro z hz
      rw [cleanedPackages_cons]
      by_cases hs : pyStrip p = ""
      · rw [if_pos hs]; exact hz
      · rw [if_neg hs]; exact List.mem_cons.mpr (.inr hz)
    have hconsrest : ∀ x ∈ cleanedPackages rest, ∀ y ∈ cleanedPackages rest,
        pyLower x = pyLower y → x = y :=
      fun x hx y hy => hcons x (hmemrest x hx) y (hmemrest y hy)
    intro seen x
    simp only [normalizeGo]
    by_cases hs : pyStrip p = ""
    · rw [if_pos hs, cleanedPackages_cons, if_pos hs]
      exact ih hconsrest seen x
    · rw [if_neg hs, cleanedPackages_cons, if_neg hs]
      by_cases hseen : pyLower (pyStrip p) ∈ seen
      · rw [if_pos hseen]
        rw [ih hconsrest seen x]
        constructor
        · rintro ⟨hin, hns⟩
          exact ⟨List.mem_cons.mpr (.inr hin), hns⟩
        · rintro ⟨hin, hns⟩
          rcases List.mem_cons.mp hin with hx | hx
          · subst hx
            exact absurd hseen hns
          · exact ⟨hx, hns⟩
      · rw [if_neg hseen]
        constructor
        · intro h
          rcases List.mem_cons.mp h with hx | hx
          · subst hx
            exact ⟨List.mem_cons.mpr (.inl rfl), hseen⟩
          · obtain ⟨hin, hns⟩ := (ih hconsrest _ x).mp hx
            refine ⟨List.mem_cons.mpr (.inr hin), fun hc => hns ?_⟩
            exact List.mem_cons.mpr (.inr hc)
        · rintro ⟨hin, hns⟩
          rcases List.mem_cons.mp hin with hx | hx
          · subst hx
            exact List.mem_cons.mpr (.inl rfl)
          · by_cases hlow : pyLower x = pyLower (pyStrip p)
            · have hxp : x = pyStrip p := by
                refine hcons x ?_ (pyStrip p) ?_ hlow
                · exact hmemrest x hx
                · rw [cleanedPackages_cons, if_neg hs]
                  exact List.mem_cons.mpr (.inl rfl)
              subst hxp
              exact List.mem_cons.mpr (.inl rfl)
            · refine List.mem_cons.mpr (.inr ?_)
              refine (ih hconsrest _ x).mpr ⟨hx, fun hc => ?_⟩
              rcases List.mem_cons.mp hc with hc1 | hc2
              · exact hlow hc1
              · exact hns hc2

lemma normalizeGo_pairwise (l : List String) : ∀ seen,
    (normalizeGo seen l).Pairwise (fun a b => pyLower a ≠ pyLower b) := by
  induction l with
  | nil =>
    intro seen
    simp [normalizeGo]
  | cons p rest ih =>
    intro seen
    simp only [normalizeGo]
    by_cases hs : pyStrip p = ""
    · rw [if_pos hs]
      exact ih seen
    · rw [if_neg hs]
      by_cases hseen : pyLower (pyStrip p) ∈ seen
      · rw [if_pos hseen]
        exact ih seen
      · rw [if_neg hseen]
        refine List.Pairwise.cons ?_ (ih _)
        intro b hb heq
        exact normalizeGo_lower_not_seen rest _ b hb
          (heq ▸ List.mem_cons.mpr (.inl rfl))

lemma normalizeGo_nodup (l : List String) (seen : List String) :
    (normalizeGo seen l).Nodup :=
  (normalizeGo_pairwise l seen).imp fun h heq => h (congrArg pyLower heq)

/-- **C8 (amended)** — the environment key is invariant under reordering,
exact duplicates, and whitespace differences of the dependency list, provided
entries that agree case-insensitively are spelled identically: whenever two
lists have the same set of stripped non-blank entries and no two of those
entries differ only in case, `compute_deps_hash` agrees on them.  (Equal
inputs trivially yield equal keys: the function is pure.)  Lists differing
*only in letter casing* generally produce different keys — see the
counterexample — because `_normalize_packages` keeps the first spelling's
original casing, which changes the hashed bytes. -/
theorem c8_deps_hash_invariance (l1 l2 : List String) (pid : String)
    (hsub1 : ∀ x ∈ cleanedPackages l1, x ∈ cleanedPackages l2)
    (hsub2 : ∀ x ∈ cleanedPackages l2, x ∈ cleanedPackages l1)
    (hcons : ∀ x ∈ cleanedPackages l1, ∀ y ∈ cleanedPackages l1,
      pyLower x = pyLower y → x = y) :
    compute_deps_hash l1 pid = compute_deps_hash l2 pid := by
  have hcons2 : ∀ x ∈ cleanedPackages l2, ∀ y ∈ cleanedPackages l2,
      pyLower x = pyLower y → x = y :=
    fun x hx y hy => hcons x (hsub2 x hx) y (hsub2 y hy)
  have hmem : ∀ x, x ∈ normalizeGo [] l1 ↔ x ∈ normalizeGo [] l2 := by
    intro x
    rw [normalizeGo_mem l1 hcons [] x, normalizeGo_mem l2 hcons2 [] x]
    simp only [List.not_mem_nil, not_false_iff, and_true]
    exact ⟨fun h => hsub1 x h, fun h => hsub2 x h⟩
  have hperm : List.Perm (normalizeGo [] l1) (normalizeGo [] l2) :=
    (List.perm_ext_iff_of_nodup (normalizeGo_nodup l1 []) (normalizeGo_nodup l2 [])).mpr hmem
  have hnorm : normalize_packages l1 = normalize_packages l2 := by
    unfold normalize_packages
    exact List.eq_of_perm_of_sorted
      ((List.perm_insertionSort _ _).trans (hperm.trans (List.perm_insertionSort _ _).symm))
      (List.sorted_insertionSort pyKeyLe _) (List.sorted_insertionSort pyKeyLe _)
  unfold compute_deps_hash
  rw [hnorm]

set_option maxRecDepth 10000

/-- Counterexample to C8 as stated: a pure letter-casing difference changes
the computed key, and element order matters when two entries differ only in
case (the kept spelling is the first occurrence's). -/
theorem c8_counterexample :
    compute_deps_hash ["NumPy"] "py310" ≠ compute_deps_hash ["numpy"] "py310" ∧
    compute_deps_hash ["NumPy", "numpy"] "py310"
      ≠ compute_deps_hash ["numpy", "NumPy"] "py310" := by
  constructor
  · decide
  · decide

/-- Witness for the amended C8: reordering, an exact duplicate and
surrounding whitespace do not change the key. -/
theorem c8_witness :
    (∀ x ∈ cleanedPackages [" torch", "NumPy", "torch"],
        x ∈ cleanedPackages ["NumPy", "torch"]) ∧
    (∀ x ∈ cleanedPackages ["NumPy", "torch"],
        x ∈ cleanedPackages [" torch", "NumPy", "torch"]) ∧
    (∀ x ∈ cleanedPackages [" torch", "NumPy", "torch"],
      ∀ y ∈ cleanedPackages [" torch", "NumPy", "torch"],
        pyLower x = pyLower y → x = y) ∧
    compute_deps_hash [" torch", "NumPy", "torch"] "py310"
      = compute_deps_hash ["NumPy", "torch"] "py310" :=
  ⟨by decide, by decide, by decide,
    c8_deps_hash_invariance [" torch", "NumPy", "torch"] ["NumPy", "torch"] "py310"
      (by decide) (by decide) (by decide)⟩

/-- Exceptions on the `ensure_environment` paths touched by the claims.
`environmentSetupError` and `dependencyError` mirror the PContext classes of
`src/core/errors.py`; `timeoutError` mirrors Python's *builtin*
`TimeoutError`, which is what `_CreationLock.__enter__` raises and which is
not part of the PContext error hierarchy. -/
inductive EnvExn where
  | environmentSetupError (msg : String)
  | dependencyError (msg : String)
  | timeoutError (msg : String)
deriving Repr, DecidableEq

/-- Outcome of one `mkdir(parents=False, exist_ok=False)` attempt inside the
`_CreationLock.acquire` polling loop. -/
inductive MkdirOutcome where
  | success
  | fileExists
  | otherError
deriving Repr, DecidableEq

/-- Mirror of the `_CreationLock.acquire` loop.  Each element is one `mkdir`
attempt; the list covers exactly the attempts made before
`time.time() - start > self.timeout` turns true, so an exhausted list is the
`return False` branch of the timeout check (both the `FileExistsError` and
the generic-exception arm sleep `poll_interval` and retry). -/
def creationLockAcquire : List MkdirOutcome → Bool
  | [] => false
  | .success :: _ => true
  | .fileExists :: rest => creationLockAcquire rest
  | .otherError :: rest => creationLockAcquire rest

/-- Mirror of `_CreationLock.__enter__`: a failed `acquire` raises the
builtin `TimeoutError` with the lock directory in the message. -/
def creationLockEnter (attempts : List MkdirOutcome) (lockDir : String) :
    Except EnvExn Unit :=
  if creationLockAcquire attempts then .ok ()
  else .error (.timeoutError ("Не удалось получить блокировку " ++ lockDir))

/-- Slow path of `ensure_environment` after computing the key.  `fastReady`
is the lock-free readiness check (`vpy.exists() and ready_marker.exists()`),
`readyAfterLock` the re-check under the lock, and `buildResult` abstracts
venv creation, pip bootstrap, dependency installation and marker writing
(which raise `EnvironmentSetupError`/`DependencyError` on failure).  The
returned `Bool` is the handle's `created` flag. -/
def ensure_environment_slow (fastReady : Bool) (attempts : List MkdirOutcome)
    (lockDir : String) (readyAfterLock : Bool)
    (buildResult : Except EnvExn Unit) : Except EnvExn Bool :=
  if fastReady then .ok false
  else
    match creationLockEnter attempts lockDir with
    | .error e => .error e
    | .ok () =>
      if readyAfterLock then .ok false
      else
        match buildResult with
        | .error e => .error e
        | .ok () => .ok true

/-- Does `ensure_environment` report the failure as `EnvironmentSetupError`? -/
def isEnvironmentSetupError : Except EnvExn Bool → Bool
  | .error (.environmentSetupError _) => true
  | _ => false

/-- Counterexample to C9 as stated: with the environment not yet ready and
every `mkdir` attempt refused until the timeout, `ensure_environment` raises
the builtin `TimeoutError` — not `EnvironmentSetupError`. -/
theorem c9_counterexample :
    ensure_environment_slow false [.fileExists, .fileExists] ".lock-env" false (.ok ())
      = .error (.timeoutError "Не удалось получить блокировку .lock-env") ∧
    isEnvironmentSetupError
      (ensure_environment_slow false [.fileExists, .fileExists] ".lock-env" false (.ok ()))
      = false :=
  ⟨rfl, rfl⟩

/-- **C9 (amended)** — when the cross-process creation lock for a key cannot
be acquired within its timeout (every poll's `mkdir` fails until the deadline),
`ensure_environment` fails by raising the builtin `TimeoutError` from
`_CreationLock.__enter__`, naming the lock directory; no
`EnvironmentSetupError` is raised on this path. -/
theorem c9_lock_timeout (attempts : List MkdirOutcome) (lockDir : String)
    (readyAfterLock : Bool) (buildResult : Except EnvExn Unit)
    (h : creationLockAcquire attempts = false) :
    ensure_environment_slow false attempts lockDir readyAfterLock buildResult
      = .error (.timeoutError ("Не удалось получить блокировку " ++ lockDir)) := by
  simp [ensure_environment_slow, creationLockEnter, h]

/-- Witness for the amended C9 at a concrete exhausted polling sequence. -/
theorem c9_witness :
    creationLockAcquire [.fileExists, .otherError, .fileExists] = false ∧
    ensure_environment_slow false [.fileExists, .otherError, .fileExists]
        ".lock-py310-ab12" true (.ok ())
      = .error (.timeoutError "Не удалось получить блокировку .lock-py310-ab12") :=
  ⟨by decide, c9_lock_timeout [.fileExists, .otherError, .fileExists]
    ".lock-py310-ab12" true (.ok ()) (by decide)⟩

/-! ## JSON values (the `json.loads` subset used on the wire).  Numbers are
modelled as integers — every payload the protocol itself produces
(`req_id`, `ok`, `result`, error fields) is null/bool/int/string/array/object;
fractional literals are rejected by this model's parser. -/

inductive JVal where
  | null
  | bool (b : Bool)
  | num (n : Int)
  | str (s : String)
  | arr (xs : List JVal)
  | obj (kvs : List (String × JVal))

/-- `dict.get(k)` on a parsed JSON object.  Python builds the dict by
insertion, so a duplicated key keeps its *last* value. -/
def objGet (kvs : List (String × JVal)) (k : String) : Option JVal :=
  match kvs with
  | [] => none
  | (k', v) :: rest =>
    match objGet rest k with
    | some r => some r
    | none => if k' = k then some v else none

/-- Python truthiness of a JSON-decoded value. -/
def pyTruthy : JVal → Bool
  | .null => false
  | .bool b => b
  | .num n => n != 0
  | .str s => s ≠ ""
  | .arr xs => ¬ xs.isEmpty
  | .obj kvs => ¬ kvs.isEmpty

/-- `x or d` for a `dict.get` result (`None` when the key is absent). -/
def pyOr (v : Option JVal) (d : JVal) : JVal :=
  match v with
  | some x => if pyTruthy x then x else d
  | none => d

mutual
/-- Python `repr` of a JSON-decoded value. -/
def pyRepr : JVal → String
  | .null => "None"
  | .bool true => "True"
  | .bool false => "False"
  | .num n => if n < 0 then "-" ++ Nat.repr n.natAbs else Nat.repr n.natAbs
  | .str s => "\x27" ++ s ++ "\x27"
  | .arr xs => "[" ++ pyReprItems xs ++ "]"
  | .obj kvs => "\x7b" ++ pyReprMembers kvs ++ "\x7d"

def pyReprItems : List JVal → String
  | [] => ""
  | [x] => pyRepr x
  | x :: y :: rest => pyRepr x ++ ", " ++ pyReprItems (y :: rest)

def pyReprMembers : List (String × JVal) → String
  | [] => ""
  | [(k, v)] => "\x27" ++ k ++ "\x27: " ++ pyRepr v
  | (k, v) :: m :: rest => "\x27" ++ k ++ "\x27: " ++ pyRepr v ++ ", " ++ pyReprMembers (m :: rest)
end

/-- Python `str()` of a JSON-decoded value (`str` of a string is itself;
containers fall back to `repr`). -/
def pyStr : JVal → String
  | .str s => s
  | v => pyRepr v

/-- JSON insignificant whitespace. -/
def jsonWs (c : Char) : Bool :=
  c = ' ' ∨ c = '\t' ∨ c = '\n' ∨ c = '\r'

def skipWs : List Char → List Char
  | [] => []
  | c :: rest => if jsonWs c then skipWs rest else c :: rest

def hexVal (c : Char) : Option Nat :=
  if 48 ≤ c.toNat ∧ c.toNat ≤ 57 then some (c.toNat - 48)
  else if 97 ≤ c.toNat ∧ c.toNat ≤ 102 then some (c.toNat - 87)
  else if 65 ≤ c.toNat ∧ c.toNat ≤ 70 then some (c.toNat - 55)
  else none

/-- JSON string body after the opening quote; handles the standard escapes
(`\uXXXX` outside the surrogate range). -/
def parseStrGo : List Char → List Char → Option (String × List Char)
  | _, [] => none
  | acc, '\\' :: 'u' :: h1 :: h2 :: h3 :: h4 :: rest =>
    match hexVal h1, hexVal h2, hexVal h3, hexVal h4 with
    | some a, some b, some c, some d =>
      let n := ((a * 16 + b) * 16 + c) * 16 + d
      if n < 55296 ∨ 57343 < n then parseStrGo (Char.ofNat n :: acc) rest
      else none
    | _, _, _, _ => none
  | acc, '\\' :: e :: rest =>
    if e = '"' then parseStrGo ('"' :: acc) rest
    else if e = '\\' then parseStrGo ('\\' :: acc) rest
    else if e = '/' then parseStrGo ('/' :: acc) rest
    else if e = 'n' then parseStrGo ('\n' :: acc) rest
    else if e = 't' then parseStrGo ('\t' :: acc) rest
    else if e = 'r' then parseStrGo ('\r' :: acc) rest
    else if e = 'b' then parseStrGo ('\x08' :: acc) rest
    else if e = 'f' then parseStrGo ('\x0c' :: acc) rest
    else none
  | acc, c :: rest =>
    if c = '"' then some (⟨acc.reverse⟩, rest)
    else parseStrGo (c :: acc) rest

def isDigitCh (c : Char) : Bool := 48 ≤ c.toNat ∧ c.toNat ≤ 57

def digitsGo : List Char → Nat → Nat × List Char
  | [], acc => (acc, [])
  | c :: rest, acc =>
    if isDigitCh c then digitsGo rest (acc * 10 + (c.toNat - 48)) else (acc, c :: rest)

mutual
def parseVal : Nat → List Char → Option (JVal × List Char)
  | 0, _ => none
  | fuel + 1, cs =>
    match skipWs cs with
    | 'n' :: 'u' :: 'l' :: 'l' :: rest => some (.null, rest)
    | 't' :: 'r' :: 'u' :: 'e' :: rest => some (.bool true, rest)
    | 'f' :: 'a' :: 'l' :: 's' :: 'e' :: rest => some (.bool false, rest)
    | '"' :: rest =>
      match parseStrGo [] rest with
      | some (s, r) => some (.str s, r)
      | none => none
    | '[' :: rest =>
      (match skipWs rest with
      | ']' :: r2 => some (.arr [], r2)
      | r1 =>
        match parseItems fuel r1 with
        | some (xs, r2) => some (.arr xs, r2)
        | none => none)
    | '-' :: c :: rest =>
      if isDigitCh c then
        let (n, r) := digitsGo rest (c.toNat - 48)
        some (.num (-(n : Int)), r)
      else none
    | c :: rest =>
      if isDigitCh c then
        let (n, r) := digitsGo rest (c.toNat - 48)
        some (.num (n : Int), r)
      else if c.toNat = 123 then
        match skipWs rest with
        | c2 :: r2 =>
          if c2.toNat = 125 then some (.obj [], r2)
          else
            match parseMembers fuel (c2 :: r2) with
            | some (kvs, r3) => some (.obj kvs, r3)
            | none => none
        | [] => none
      else none
    | [] => none

def parseItems : Nat → List Char → Option (List JVal × List Char)
  | 0, _ => none
  | fuel + 1, cs =>
    match parseVal fuel cs with
    | none => none
    | some (v, r1) =>
      match skipWs r1 with
      | ',' :: r2 =>
        match parseItems fuel r2 with
        | some (xs, r3) => some (v :: xs, r3)
        | none => none
      | ']' :: r2 => some ([v], r2)
      | _ => none

def parseMembers : Nat → List Char → Option (List (String × JVal) × List Char)
  | 0, _ => none
  | fuel + 1, cs =>
    match skipWs cs with
    | '"' :: r1 =>
      match parseStrGo [] r1 with
      | none => none
      | some (k, r2) =>
        match skipWs r2 with
        | ':' :: r3 =>
          match parseVal fuel r3 with
          | none => none
          | some (v, r4) =>
            match skipWs r4 with
            | ',' :: r5 =>
              (match parseMembers fuel r5 with
              | some (kvs, r6) => some ((k, v) :: kvs, r6)
              | none => none)
            | c :: r5 =>
              if c.toNat = 125 then some ([(k, v)], r5) else none
            | [] => none
        | _ => none
    | _ => none
end

/-- `json.loads`: parse one value, allow trailing whitespace, reject extra
input. -/
def jsonParse (s : String) : Option JVal :=
  match parseVal (2 * s.data.length + 2) s.data with
  | some (v, rest) => if skipWs rest = [] then some v else none
  | none => none

/-! ## ServiceSession (src/pcontext/core/ipc.py) -/

/-- Mirror of `ServiceResponse`; `result = None` and JSON `null` are the same
Python object, both rendered `.null`. -/
structure SResponse where
  ok : Bool
  req_id : Option JVal
  result : JVal := .null
  error_type : Option String := none
  error_message : Option String := none
  traceback : Option String := none

/-- Mirror of a `ReadyInfo`. -/
structure SReadyInfo where
  ok : Bool
  entry : Option JVal
  data : List (String × JVal)

/-- Mirror of a `ByeInfo`. -/
structure SByeInfo where
  ok : Bool
  reason : Option JVal
  data : List (String × JVal)

/-- One pending-table slot, mirroring the dict
`{"evt": Event(), "resp": None, "req_id": req_id}`.  `respKeyPresent`
records whether the *key* `"resp"` is in the dict (what `"resp" not in slot`
tests); it is `true` from creation on even while the value is `None`. -/
structure Slot where
  evtSet : Bool
  respKeyPresent : Bool
  resp : Option SResponse
  req_id : String

/-- Mirror of the `ServiceSession` state touched by the reader and waiters. -/
structure SessState where
  readyEvt : Bool
  readyInfo : Option SReadyInfo
  byeEvt : Bool
  byeInfo : Option SByeInfo
  pending : List (String × Slot)

def emptySession : SessState := ⟨false, none, false, none, []⟩

def slotLookup : List (String × Slot) → String → Option Slot
  | [], _ => none
  | (k, v) :: rest, n => if k = n then some v else slotLookup rest n

def slotSet : List (String × Slot) → String → Slot → List (String × Slot)
  | [], n, s => [(n, s)]
  | (k, v) :: rest, n, s =>
    if k = n then (n, s) :: rest else (k, v) :: slotSet rest n s

/-- `self._pending.pop(req_id, None)`. -/
def slotRemove : List (String × Slot) → String → List (String × Slot)
  | [], _ => []
  | (k, v) :: rest, n => if k = n then rest else (k, v) :: slotRemove rest n

/-- Mirror of `parse_service_line`: tag dispatch on the `PCTX:` prefixes,
then `json.loads` of the remainder (`{}` when the remainder is empty or
malformed — malformed bodies are never fatal to the parse). -/
def parse_service_line (line : String) : Option (String × JVal) :=
  let cs := line.data
  let payloadFrom : List Char → JVal := fun raw =>
    if raw.isEmpty then .obj []
    else match jsonParse ⟨raw⟩ with
      | some v => v
      | none => .obj []
  if ¬ ("PCTX:".data.isPrefixOf cs) then none
  else if "PCTX:READY ".data.isPrefixOf cs then some ("READY", payloadFrom (cs.drop 11))
  else if "PCTX:RESP ".data.isPrefixOf cs then some ("RESP", payloadFrom (cs.drop 10))
  else if "PCTX:EXC ".data.isPrefixOf cs then some ("EXC", payloadFrom (cs.drop 9))
  else if "PCTX:BYE ".data.isPrefixOf cs then some ("BYE", payloadFrom (cs.drop 9))
  else none

def jvalAsObj : JVal → Option (List (String × JVal))
  | .obj kvs => some kvs
  | _ => none

/-- Result of handling one line in `_reader_loop`: either the next state, or
the state at which the loop body raised (e.g. `payload.get` on a non-dict),
which transfers control to the `except`/`finally` clauses. -/
inductive StepOut where
  | next (st : SessState)
  | crash (st : SessState)

/-- One iteration of `_reader_loop` (with `_stop_evt` never set and the
`on_raw` sink absorbed: it only logs). -/
def readerStep (st : SessState) (line : String) : StepOut :=
  match parse_service_line line with
  | none => .next st
  | some (tag, payload) =>
    if tag = "READY" then
      match jvalAsObj payload with
      | none => .crash st
      | some p =>
        .next { st with
          readyInfo := some ⟨pyTruthy ((objGet p "ok").getD (.bool true)), objGet p "entry", p⟩,
          readyEvt := true }
    else if tag = "RESP" then
      match jvalAsObj payload with
      | none => .crash st
      | some p =>
        match objGet p "req_id" with
        | some (.str s) =>
          match slotLookup st.pending s with
          | none => .next st
          | some slot =>
            let resp : SResponse :=
              { ok := true, req_id := some (.str s), result := (objGet p "result").getD .null }
            let p' := slotSet st.pending s { slot with resp := some resp, evtSet := true }
            .next { st with pending := p' }
        | _ => .next st
    else if tag = "EXC" then
      match jvalAsObj payload with
      | none => .crash st
      | some p =>
        let req_id := objGet p "req_id"
        let emsg := pyStr (pyOr (objGet p "error_message") (.str ""))
        let resp : SResponse :=
          { ok := false, req_id := req_id,
            error_type := some (pyStr (pyOr (objGet p "error_type") (.str "Error"))),
            error_message := some emsg,
            traceback := some (pyStr (pyOr (objGet p "traceback") (.str ""))) }
        if (match req_id with | some v => pyTruthy v | none => false) then
          match req_id with
          | some (.str s) =>
            (match slotLookup st.pending s with
            | none => .next st
            | some slot =>
              let p' := slotSet st.pending s { slot with resp := some resp, evtSet := true }
              .next { st with pending := p' })
          | _ => .next st
        else
          if ¬ st.readyEvt then
            .next { st with
              readyInfo := some ⟨false, none, [("error", .str emsg)]⟩, readyEvt := true }
          else .next st
    else if tag = "BYE" then
      match jvalAsObj payload with
      | none => .crash st
      | some p =>
        .next { st with
          byeInfo := some ⟨pyTruthy ((objGet p "ok").getD (.bool true)), objGet p "reason", p⟩,
          byeEvt := true }
    else .next st

/-- How the reader's `for` loop over the worker's stdout ended: clean stream
closure (EOF) or a raised read error. -/
inductive ReadEnd where
  | eof
  | exc

/-- The `except`/`finally` clauses of `_reader_loop`.  On the exception path
the synthetic-`IPCError` block only fires for slots *missing the `"resp"`
key* (`"resp" not in slot`) — the key is always present (value `None`), so
that block is dead code; the `finally` clause sets every event without
installing a response. -/
def readerFinish (st : SessState) (e : ReadEnd) : SessState :=
  let st1 :=
    match e with
    | .exc =>
      let synthetic : String → SResponse := fun rid =>
        { ok := false, req_id := some (.str rid), error_type := some "IPCError",
          error_message := some "connection lost" }
      let p' := st.pending.map fun (kv : String × Slot) =>
        if kv.2.respKeyPresent then kv
        else (kv.1, { kv.2 with respKeyPresent := true, evtSet := true, resp := some (synthetic kv.2.req_id) })
      { st with readyEvt := true, byeEvt := true, pending := p' }
    | .eof => st
  let pfin := st1.pending.map fun (kv : String × Slot) => (kv.1, { kv.2 with evtSet := true })
  { st1 with readyEvt := true, byeEvt := true, pending := pfin }

/-- The whole reader thread: handle each line in order; a raised loop body or
a raised stream read takes the `except` path, clean termination the `finally`
path only. -/
def readerRun (st : SessState) : List String → ReadEnd → SessState
  | [], e => readerFinish st e
  | l :: rest, e =>
    match readerStep st l with
    | .next st' => readerRun st' rest e
    | .crash st' => readerFinish st' .exc

/-- Slot registration shared by `request` and `ping`:
`slot = {"evt": Event(), "resp": None, "req_id": req_id}`. -/
def register_waiter (st : SessState) (reqId : String) : SessState :=
  let slot : Slot := { evtSet := false, respKeyPresent := true, resp := none, req_id := reqId }
  { st with pending := slotSet st.pending reqId slot }

inductive ReqOutcome where
  | resp (r : SResponse)
  | ipcError

/-- Tail of `ServiceSession.request` after `slot["evt"].wait(timeout)`
returned (`evtSet` is whether the event had been set by then): pop the
entry; raise `IPCError` unless the event fired and a response was installed. -/
def request_finish (st : SessState) (reqId : String) : ReqOutcome × SessState :=
  let st' := { st with pending := slotRemove st.pending reqId }
  match slotLookup st.pending reqId with
  | none => (.ipcError, st')
  | some s =>
    match s.evtSet, s.resp with
    | true, some r => (.resp r, st')
    | _, _ => (.ipcError, st')

inductive PingOutcome where
  | ret (b : Bool)
  | attributeError

/-- Tail of `ServiceSession.ping` after the wait: an unfired event pops the
entry and returns `False`; a fired event reads `slot["resp"].ok` — which, if
the response value is still `None`, raises `AttributeError` (`None` has no
attribute `ok`).  A fired event does not pop the entry. -/
def ping_finish (st : SessState) (reqId : String) : PingOutcome × SessState :=
  match slotLookup st.pending reqId with
  | none => (.attributeError, st)
  | some s =>
    if s.evtSet then
      match s.resp with
      | none => (.attributeError, st)
      | some r => (.ret r.ok, st)
    else (.ret false, { st with pending := slotRemove st.pending reqId })

lemma slotLookup_slotSet (l : List (String × Slot)) (n m : String) (s : Slot) :
    slotLookup (slotSet l n s) m = if n = m then some s else slotLookup l m := by
  induction l with
  | nil => simp [slotSet, slotLookup]
  | cons kv rest ih =>
    obtain ⟨k, v⟩ := kv
    by_cases hkn : k = n
    · subst hkn
      by_cases hkm : k = m <;> simp [slotSet, slotLookup, hkm]
    · have hsa : slotSet ((k, v) :: rest) n s = (k, v) :: slotSet rest n s := by
        simp [slotSet, hkn]
      rw [hsa]
      by_cases hkm : k = m
      · subst hkm
        have hnm : ¬ n = k := fun h => hkn h.symm
        simp [slotLookup, hnm]
      · simp [slotLookup, hkm, ih]

lemma slotLookup_none_of_not_mem (l : List (String × Slot)) (n : String)
    (h : n ∉ l.map Prod.fst) : slotLookup l n = none := by
  induction l with
  | nil => rfl
  | cons kv rest ih =>
    obtain ⟨k, v⟩ := kv
    simp only [List.map_cons, List.mem_cons] at h
    push_neg at h
    have hk : k ≠ n := fun he => h.1 he.symm
    simp [slotLookup, hk, ih h.2]

lemma slotRemove_lookup_self (l : List (String × Slot)) (n : String)
    (h : (l.map Prod.fst).Nodup) : slotLookup (slotRemove l n) n = none := by
  induction l with
  | nil => rfl
  | cons kv rest ih =>
    obtain ⟨k, v⟩ := kv
    simp only [List.map_cons, List.nodup_cons] at h
    by_cases hk : k = n
    · subst hk
      simp only [slotRemove, if_pos rfl]
      exact slotLookup_none_of_not_mem rest k h.1
    · simp [slotRemove, hk, slotLookup, ih h.2]

lemma slotSet_keys_subset (l : List (String × Slot)) (n : String) (s : Slot) :
    ∀ m, m ∈ (slotSet l n s).map Prod.fst → m ∈ n :: l.map Prod.fst := by
  induction l with
  | nil =>
    intro m hm
    rw [show slotSet [] n s = [(n, s)] from rfl, List.map_cons] at hm
    rcases List.mem_cons.mp hm with h1 | h1
    · exact List.mem_cons.mpr (.inl h1)
    · rw [List.map_nil] at h1
      exact absurd h1 (List.not_mem_nil m)
  | cons kv rest ih =>
    obtain ⟨k, v⟩ := kv
    intro m hm
    by_cases hk : k = n
    · subst hk
      rw [show slotSet ((k, v) :: rest) k s = (k, s) :: rest from by simp [slotSet],
        List.map_cons] at hm
      rcases List.mem_cons.mp hm with h1 | h1
      · exact List.mem_cons.mpr (.inl h1)
      · refine List.mem_cons.mpr (.inr ?_)
        rw [List.map_cons]
        exact List.mem_cons.mpr (.inr h1)
    · rw [show slotSet ((k, v) :: rest) n s = (k, v) :: slotSet rest n s from by
        simp [slotSet, hk], List.map_cons] at hm
      rcases List.mem_cons.mp hm with h1 | h1
      · refine List.mem_cons.mpr (.inr ?_)
        rw [List.map_cons]
        exact List.mem_cons.mpr (.inl h1)
      · rcases List.mem_cons.mp (ih m h1) with h2 | h2
        · exact List.mem_cons.mpr (.inl h2)
        · refine List.mem_cons.mpr (.inr ?_)
          rw [List.map_cons]
          exact List.mem_cons.mpr (.inr h2)

lemma slotSet_keys_nodup (l : List (String × Slot)) (n : String) (s : Slot)
    (h : (l.map Prod.fst).Nodup) : ((slotSet l n s).map Prod.fst).Nodup := by
  induction l with
  | nil => simp [slotSet]
  | cons kv rest ih =>
    obtain ⟨k, v⟩ := kv
    simp only [List.map_cons, List.nodup_cons] at h
    by_cases hk : k = n
    · subst hk
      simpa [slotSet] using h
    · rw [show slotSet ((k, v) :: rest) n s = (k, v) :: slotSet rest n s by simp [slotSet, hk]]
      refine List.nodup_cons.mpr ⟨?_, ih h.2⟩
      intro hc
      rcases List.mem_cons.mp (slotSet_keys_subset rest n s k hc) with h2 | h2
      · exact hk h2
      · exact h.1 h2

/-- The response object built by the `RESP`/`EXC` branch of `_reader_loop`
for a payload `p` (with a string `req_id`). -/
def respOf (tag : String) (p : List (String × JVal)) : SResponse :=
  if tag = "RESP" then
    { ok := true, req_id := objGet p "req_id", result := (objGet p "result").getD .null }
  else
    { ok := false, req_id := objGet p "req_id",
      error_type := some (pyStr (pyOr (objGet p "error_type") (.str "Error"))),
      error_message := some (pyStr (pyOr (objGet p "error_message") (.str ""))),
      traceback := some (pyStr (pyOr (objGet p "traceback") (.str ""))) }

/-- **C2** — for every `RESP` or `EXC` line whose (string, non-empty)
`req_id` is registered in the session's pending table, the reader completes
exactly the waiter registered under that identifier — every other key's entry
is untouched — and that waiter's `request` then returns this very response,
removing the entry from the pending table; a `RESP` or `EXC` line with an
unregistered or absent `req_id` wakes no waiter.  Hence concurrently
in-flight requests on one session receive their own responses even when
completed out of order.  (Real identifiers are `uuid4().hex`, hence non-empty
— non-emptiness matters because `EXC` routes a falsy `req_id` to the
init-failure path instead.) -/
theorem c2_response_correlation (st : SessState) (line tag : String)
    (p : List (String × JVal))
    (hkeys : (st.pending.map Prod.fst).Nodup)
    (hparse : parse_service_line line = some (tag, .obj p))
    (htag : tag = "RESP" ∨ tag = "EXC") :
    (∀ ra slot, objGet p "req_id" = some (.str ra) → ra ≠ "" →
      slotLookup st.pending ra = some slot →
      readerStep st line = .next { st with pending := slotSet st.pending ra { slot with resp := some (respOf tag p), evtSet := true } } ∧
      (∀ k, k ≠ ra →
        slotLookup (slotSet st.pending ra { slot with resp := some (respOf tag p), evtSet := true }) k = slotLookup st.pending k) ∧
      request_finish { st with pending := slotSet st.pending ra { slot with resp := some (respOf tag p), evtSet := true } } ra
        = (.resp (respOf tag p), { st with pending := slotRemove (slotSet st.pending ra { slot with resp := some (respOf tag p), evtSet := true }) ra }) ∧
      slotLookup (slotRemove (slotSet st.pending ra { slot with resp := some (respOf tag p), evtSet := true }) ra) ra = none) ∧
    (∀ ra, objGet p "req_id" = some (.str ra) → ra ≠ "" →
      slotLookup st.pending ra = none → readerStep st line = .next st) ∧
    (objGet p "req_id" = none →
      ∃ st', readerStep st line = .next st' ∧ st'.pending = st.pending) := by
  have hfinish : ∀ ra slot,
      slotLookup st.pending ra = some slot → ∀ r : SResponse,
      request_finish { st with pending := slotSet st.pending ra { slot with resp := some r, evtSet := true } } ra
        = (.resp r, { st with pending := slotRemove (slotSet st.pending ra { slot with resp := some r, evtSet := true }) ra }) := by
    intro ra slot _ r
    unfold request_finish
    rw [slotLookup_slotSet, if_pos rfl]
  have hframe : ∀ (ra : String) (slot : Slot) (r : SResponse) (k : String), k ≠ ra →
      slotLookup (slotSet st.pending ra { slot with resp := some r, evtSet := true }) k = slotLookup st.pending k := by
    intro ra slot r k hk
    rw [slotLookup_slotSet, if_neg (fun h => hk h.symm)]
  have hremoved : ∀ (ra : String) (slot : Slot) (r : SResponse),
      slotLookup (slotRemove (slotSet st.pending ra { slot with resp := some r, evtSet := true }) ra) ra = none := by
    intro ra slot r
    exact slotRemove_lookup_self _ ra (slotSet_keys_nodup _ ra _ hkeys)
  rcases htag with htag | htag <;> subst htag
  · refine ⟨?_, ?_, ?_⟩
    · intro ra slot hrid hra hslot
      refine ⟨?_, hframe ra slot _, hfinish ra slot hslot _, hremoved ra slot _⟩
      simp only [readerStep, hparse, jvalAsObj, hrid, hslot, respOf, if_pos rfl]
      rw [if_neg (by decide : ¬ ("RESP" : String) = "READY")]
      simp [hrid]
    · intro ra hrid hra hslot
      simp only [readerStep, hparse, jvalAsObj, hrid, hslot]
      rw [if_neg (by decide : ¬ ("RESP" : String) = "READY")]
      simp
    · intro hrid
      refine ⟨st, ?_, rfl⟩
      simp only [readerStep, hparse, jvalAsObj, hrid]
      rw [if_neg (by decide : ¬ ("RESP" : String) = "READY")]
      simp
  · refine ⟨?_, ?_, ?_⟩
    · intro ra slot hrid hra hslot
      have htru : pyTruthy (.str ra) = true := by
        simp [pyTruthy, hra]
      refine ⟨?_, hframe ra slot _, hfinish ra slot hslot _, hremoved ra slot _⟩
      simp only [readerStep, hparse, jvalAsObj, hrid, hslot, respOf, htru]
      rw [if_neg (by decide : ¬ ("EXC" : String) = "READY")]
      rw [if_neg (by decide : ¬ ("EXC" : String) = "RESP")]
      simp [hrid]
    · intro ra hrid hra hslot
      have htru : pyTruthy (.str ra) = true := by
        simp [pyTruthy, hra]
      simp only [readerStep, hparse, jvalAsObj, hrid, hslot, htru]
      rw [if_neg (by decide : ¬ ("EXC" : String) = "READY")]
      rw [if_neg (by decide : ¬ ("EXC" : String) = "RESP")]
      simp
    · intro hrid
      simp only [readerStep, hparse, jvalAsObj, hrid]
      rw [if_neg (by decide : ¬ ("EXC" : String) = "READY")]
      rw [if_neg (by decide : ¬ ("EXC" : String) = "RESP")]
      by_cases hre : st.readyEvt
      · refine ⟨st, ?_, rfl⟩
        simp [hre]
      · refine ⟨{ st with readyEvt := true, readyInfo := some ⟨false, none, [("error", .str (pyStr (pyOr (objGet p "error_message") (.str ""))))]⟩ }, ?_, rfl⟩
        simp [hre]

/-- Witness scenario for C2: a session with two in-flight requests
(`"aaaa"` and `"bbbb"`) receiving the response for `"aaaa"`. -/
def c2Sess : SessState := register_waiter (register_waiter emptySession "aaaa") "bbbb"

def c2LineA : String := "PCTX:RESP \x7b\"req_id\":\"aaaa\",\"result\":1\x7d"

def c2PayloadA : List (String × JVal) := [("req_id", .str "aaaa"), ("result", .num 1)]

def c2SlotA : Slot := ⟨false, true, none, "aaaa"⟩

def c2After : SessState :=
  { c2Sess with pending := slotSet c2Sess.pending "aaaa" { c2SlotA with resp := some (respOf "RESP" c2PayloadA), evtSet := true } }

/-- Witness for C2: the `RESP` line for `"aaaa"` completes exactly that
waiter (the `"bbbb"` entry is untouched), `request` returns that response,
and the entry leaves the table. -/
theorem c2_witness :
    readerStep c2Sess c2LineA = .next c2After ∧
    request_finish c2After "aaaa"
      = (.resp (respOf "RESP" c2PayloadA), { c2Sess with pending := slotRemove c2After.pending "aaaa" }) ∧
    slotLookup c2After.pending "bbbb" = slotLookup c2Sess.pending "bbbb" ∧
    slotLookup (slotRemove c2After.pending "aaaa") "aaaa" = none := by
  have h := c2_response_correlation c2Sess c2LineA "RESP" c2PayloadA (by decide) rfl (.inl rfl)
  obtain ⟨h1, h2, h3, h4⟩ := h.1 "aaaa" c2SlotA rfl (by decide) rfl
  exact ⟨h1, h3, h2 "bbbb" (by decide), h4⟩

/-- **C3** — behaviour at worker-death, evaluated at the failing input.  A
still-pending `request` waiter is unblocked and raises `IPCError` on both a
clean stream closure (`eof`) and a read error (`exc`); but the
synthetic-`IPCError` block of the `except` clause never fires (the `"resp"`
key is always present, so `"resp" not in slot` is always false, and the
slot's response value is still `None` after the reader dies), so a
still-pending `ping` waiter evaluates `None.ok` and raises `AttributeError`
instead of returning `False` as the claim states.  Subsequent calls behave
as claimed: `request` raises `IPCError` when its wait times out and `ping`
returns `False`. -/
theorem c3_reader_death :
    (request_finish (readerRun (register_waiter emptySession "aaaa") [] .eof) "aaaa").1 = .ipcError ∧
    (request_finish (readerRun (register_waiter emptySession "aaaa") [] .exc) "aaaa").1 = .ipcError ∧
    (slotLookup (readerRun (register_waiter emptySession "aaaa") [] .exc).pending "aaaa").map Slot.resp = some none ∧
    (ping_finish (readerRun (register_waiter emptySession "pppp") [] .eof) "pppp").1 = .attributeError ∧
    (ping_finish (readerRun (register_waiter emptySession "pppp") [] .exc) "pppp").1 = .attributeError ∧
    (request_finish (register_waiter (readerRun emptySession [] .eof) "cccc") "cccc").1 = .ipcError ∧
    (ping_finish (register_waiter (readerRun emptySession [] .eof) "dddd") "dddd").1 = .ret false :=
  ⟨rfl, rfl, rfl, rfl, rfl, rfl, rfl⟩

/-! ## ServiceManager (src/core/services.py) -/

/-- Program counter of one thread executing `ServiceManager.get_or_start` for
a fixed descriptor identity.  `atLookup` is the `with self._lock:` table
check; `atSpawn` is `_start_service` up to and including the successful
spawn + readiness handshake (the new worker process is live from here on);
`atRegister` is the final `with self._lock: self._services[sid] = handle`.
The lock is *not* held between the lookup and the registration — exactly as
in the source, where `_start_service` runs outside `self._lock`. -/
inductive ThreadPC where
  | atLookup
  | atSpawn
  | atRegister (pid : Nat)
  | done (pid : Nat)
deriving Repr, DecidableEq

/-- Shared state of the two-thread `get_or_start` model: the `_services`
table restricted to handles (represented by their worker pids), the set of
live worker processes, and a fresh-pid counter.  Processes stay alive in
this scenario (no crash), so `handle.is_alive()` is true for table entries. -/
structure SvcConfig where
  table : List (String × Nat)
  procs : List Nat
  nextPid : Nat
  t1 : ThreadPC
  t2 : ThreadPC
deriving Repr, DecidableEq

def tableLookup : List (String × Nat) → String → Option Nat
  | [], _ => none
  | (k, v) :: rest, n => if k = n then some v else tableLookup rest n

/-- `self._services[sid] = handle`: overwrite-or-append, dict semantics. -/
def tableSet : List (String × Nat) → String → Nat → List (String × Nat)
  | [], n, v => [(n, v)]
  | (k, w) :: rest, n, v =>
    if k = n then (n, v) :: rest else (k, w) :: tableSet rest n v

/-- Number of table entries registered under `sid` (a dict holds at most 1). -/
def countKey (l : List (String × Nat)) (k : String) : Nat :=
  (l.filter (fun kv => kv.1 = k)).length

/-- One atomic step of a thread's `get_or_start`. -/
def threadStep (sid : String) (c : SvcConfig) (pc : ThreadPC) : SvcConfig × ThreadPC :=
  match pc with
  | .atLookup =>
    match tableLookup c.table sid with
    | some pid => (c, .done pid)
    | none => (c, .atSpawn)
  | .atSpawn =>
    let pid := c.nextPid
    ({ c with procs := c.procs ++ [pid], nextPid := c.nextPid + 1 }, .atRegister pid)
  | .atRegister pid =>
    ({ c with table := tableSet c.table sid pid }, .done pid)
  | .done pid => (c, .done pid)

/-- Execute one scheduler choice: `true` steps thread 1, `false` thread 2. -/
def svcStep (sid : String) (c : SvcConfig) (which : Bool) : SvcConfig :=
  if which then
    let (c', pc') := threadStep sid c c.t1
    { c' with t1 := pc' }
  else
    let (c', pc') := threadStep sid c c.t2
    { c' with t2 := pc' }

def svcRun (sid : String) (c : SvcConfig) : List Bool → SvcConfig
  | [] => c
  | w :: rest => svcRun sid (svcStep sid c w) rest

/-- Both `get_or_start` calls racing on an initially empty supervisor. -/
def svcInit : SvcConfig := ⟨[], [], 1, .atLookup, .atLookup⟩

def pcCap : ThreadPC → Nat
  | .atLookup => 1
  | .atSpawn => 1
  | .atRegister _ => 0
  | .done _ => 0

def pcDone : ThreadPC → Prop
  | .done _ => True
  | _ => False

instance : DecidablePred pcDone := fun pc => by
  cases pc <;> simp [pcDone] <;> infer_instance

/-- Invariant of the two-thread race. -/
def svcInv (sid : String) (c : SvcConfig) : Prop :=
  countKey c.table sid ≤ 1 ∧
  c.procs.length + pcCap c.t1 + pcCap c.t2 ≤ 2 ∧
  ((pcDone c.t1 ∨ pcDone c.t2) → 1 ≤ countKey c.table sid) ∧
  countKey c.table sid ≤ c.procs.length ∧
  (∀ pid, c.t1 = .atRegister pid → c.procs ≠ []) ∧
  (∀ pid, c.t2 = .atRegister pid → c.procs ≠ [])

lemma countKey_tableSet (l : List (String × Nat)) (k : String) (v : Nat) :
    countKey (tableSet l k v) k = max 1 (countKey l k) := by
  induction l with
  | nil => simp [tableSet, countKey]
  | cons kv rest ih =>
    obtain ⟨k', w⟩ := kv
    by_cases hk : k' = k
    · subst hk
      simp [tableSet, countKey, List.filter_cons]
    · simp only [tableSet, if_neg hk]
      simp only [countKey, List.filter_cons] at ih ⊢
      simp [hk, ih]

lemma countKey_pos_of_lookup (l : List (String × Nat)) (k : String) (pid : Nat)
    (h : tableLookup l k = some pid) : 1 ≤ countKey l k := by
  induction l with
  | nil => simp [tableLookup] at h
  | cons kv rest ih =>
    obtain ⟨k', w⟩ := kv
    by_cases hk : k' = k
    · subst hk
      simp [countKey, List.filter_cons]
    · simp only [tableLookup, if_neg hk] at h
      simp only [countKey, List.filter_cons, hk]
      simpa [countKey] using ih h

/-- A configuration with the two thread counters swapped. -/
def svcSwap (c : SvcConfig) : SvcConfig := { c with t1 := c.t2, t2 := c.t1 }

lemma svcInv_swap (sid : String) (c : SvcConfig) (h : svcInv sid c) :
    svcInv sid (svcSwap c) := by
  obtain ⟨h1, h2, h3, h4, h5, h6⟩ := h
  exact ⟨h1, by simp only [svcSwap]; omega, fun hd => h3 hd.symm, h4,
    fun p hp => h6 p hp, fun p hp => h5 p hp⟩

lemma svcStep_true_swap (sid : String) (c : SvcConfig) :
    svcStep sid c true = svcSwap (svcStep sid (svcSwap c) false) := by
  cases hpc : c.t1 with
  | atLookup =>
    cases hlk : tableLookup c.table sid <;>
      simp [svcStep, svcSwap, threadStep, hpc, hlk]
  | atSpawn => simp [svcStep, svcSwap, threadStep, hpc]
  | atRegister pid => simp [svcStep, svcSwap, threadStep, hpc]
  | done pid => simp [svcStep, svcSwap, threadStep, hpc]

lemma svcInv_step_false (sid : String) (c : SvcConfig)
    (h : svcInv sid c) : svcInv sid (svcStep sid c false) := by
  obtain ⟨h1, h2, h3, h4, h5, h6⟩ := h
  simp only [svcStep, if_neg (by simp : ¬ (false = true))]
  cases hpc : c.t2 with
  | atLookup =>
    rw [hpc] at h2
    simp only [pcCap] at h2
    cases hlk : tableLookup c.table sid with
    | some pid =>
      have hs : threadStep sid c .atLookup = (c, .done pid) := by
        simp [threadStep, hlk]
      rw [hs]
      refine ⟨h1, ?_, ?_, h4, fun p hp => h5 p hp, fun p hp => by simp at hp⟩
      · simp only [pcCap]
        omega
      · intro _
        exact countKey_pos_of_lookup c.table sid pid hlk
    | none =>
      have hs : threadStep sid c .atLookup = (c, .atSpawn) := by
        simp [threadStep, hlk]
      rw [hs]
      refine ⟨h1, ?_, ?_, h4, fun p hp => h5 p hp, fun p hp => by simp at hp⟩
      · simp only [pcCap]
        omega
      · intro hd
        rcases hd with hd | hd
        · exact h3 (.inl hd)
        · simp [pcDone] at hd
  | atSpawn =>
    rw [hpc] at h2
    simp only [pcCap] at h2
    have hs : threadStep sid c .atSpawn
        = ({ c with procs := c.procs ++ [c.nextPid], nextPid := c.nextPid + 1 },
           .atRegister c.nextPid) := by
      simp [threadStep]
    rw [hs]
    refine ⟨h1, ?_, ?_, ?_, fun p hp => by simp, fun p hp => by simp⟩
    · simp only [pcCap, List.length_append, List.length_singleton]
      omega
    · intro hd
      rcases hd with hd | hd
      · exact h3 (.inl hd)
      · simp [pcDone] at hd
    · simp only [List.length_append, List.length_singleton]
      omega
  | atRegister pid =>
    rw [hpc] at h2
    simp only [pcCap] at h2
    have hs : threadStep sid c (.atRegister pid)
        = ({ c with table := tableSet c.table sid pid }, .done pid) := by
      simp [threadStep]
    rw [hs]
    have hck := countKey_tableSet c.table sid pid
    have hne := h6 pid hpc
    have hpl : 1 ≤ c.procs.length := by
      cases hp : c.procs with
      | nil => exact absurd hp hne
      | cons a l => simp [hp]
    refine ⟨?_, ?_, ?_, ?_, fun p hp => h5 p hp, fun p hp => by simp [pcDone] at hp⟩
    · show countKey (tableSet c.table sid pid) sid ≤ 1
      omega
    · simp only [pcCap]
      omega
    · intro _
      show 1 ≤ countKey (tableSet c.table sid pid) sid
      omega
    · show countKey (tableSet c.table sid pid) sid ≤ c.procs.length
      omega
  | done pid =>
    rw [hpc] at h2
    simp only [pcCap] at h2
    have hs : threadStep sid c (.done pid) = (c, .done pid) := by
      simp [threadStep]
    rw [hs]
    refine ⟨h1, ?_, ?_, h4, fun p hp => h5 p hp, fun p hp => by simp at hp⟩
    · simp only [pcCap]
      omega
    · intro _
      exact h3 (.inr (by rw [hpc]; trivial))

lemma svcInv_step (sid : String) (c : SvcConfig) (w : Bool)
    (h : svcInv sid c) : svcInv sid (svcStep sid c w) := by
  cases w
  · exact svcInv_step_false sid c h
  · rw [svcStep_true_swap]
    exact svcInv_swap sid _ (svcInv_step_false sid (svcSwap c) (svcInv_swap sid c h))

lemma svcInv_run (sid : String) (sched : List Bool) : ∀ c, svcInv sid c →
    svcInv sid (svcRun sid c sched) := by
  induction sched with
  | nil => intro c h; exact h
  | cons w rest ih =>
    intro c h
    exact ih _ (svcInv_step sid c w h)

/-- Counterexample to C1 as stated: the schedule in which both threads pass
the `with self._lock:` lookup before either registers.  Both spawn a worker
(`_start_service` runs outside the lock), the second registration overwrites
the first handle, and the race ends with TWO live worker processes — not
"exactly one live worker process" — though only one registered handle. -/
theorem c1_counterexample :
    (svcRun "svc" svcInit [true, false, true, true, false, false]).procs.length = 2 ∧
    countKey (svcRun "svc" svcInit [true, false, true, true, false, false]).table "svc" = 1 ∧
    (svcRun "svc" svcInit [true, false, true, true, false, false]).t1 = .done 1 ∧
    (svcRun "svc" svcInit [true, false, true, true, false, false]).t2 = .done 2 ∧
    (svcRun "svc" svcInit [true, false, true, true, false, false]).procs.length ≠ 1 := by
  decide

/-- **C1 (amended)** — the supervisor's table (a dict keyed by
`meta.stable_id`) holds at most one registered `ServiceHandle` per descriptor
identity at every point of every interleaving, and two concurrent
`get_or_start` calls end with exactly one registered handle; but they may
leave one *or two* live worker processes, because the table check and the
registration are not atomic (`_start_service` runs outside `self._lock`),
and the orphaned first worker is never stopped. -/
theorem c1_handle_table (sched : List Bool) :
    countKey (svcRun "svc" svcInit sched).table "svc" ≤ 1 ∧
    (svcRun "svc" svcInit sched).procs.length ≤ 2 ∧
    (pcDone (svcRun "svc" svcInit sched).t1 → pcDone (svcRun "svc" svcInit sched).t2 →
      countKey (svcRun "svc" svcInit sched).table "svc" = 1 ∧
      1 ≤ (svcRun "svc" svcInit sched).procs.length) := by
  have hinit : svcInv "svc" svcInit := by
    refine ⟨by decide, by decide, ?_, by decide, ?_, ?_⟩
    · intro hd
      rcases hd with hd | hd <;> simp [svcInit, pcDone] at hd
    · intro pid hp
      simp [svcInit] at hp
    · intro pid hp
      simp [svcInit] at hp
  obtain ⟨h1, h2, h3, h4, -, -⟩ := svcInv_run "svc" sched svcInit hinit
  refine ⟨h1, ?_, ?_⟩
  · omega
  · intro hd1 _
    have hp := h3 (.inl hd1)
    exact ⟨by omega, by omega⟩

/-- Witness for the amended C1: a serialized schedule ends with one handle
and one live process. -/
theorem c1_witness :
    countKey (svcRun "svc" svcInit [true, true, true, false, false, false]).table "svc" = 1 ∧
    1 ≤ (svcRun "svc" svcInit [true, true, true, false, false, false]).procs.length :=
  (c1_handle_table [true, true, true, false, false, false]).2.2 (by decide) (by decide)

/-- Observable actions of `ServiceManager.request` after its
`get_or_start`/parameter coercion preamble. -/
inductive MgrAction where
  | sessionRequest
  | stopHandle
  | startService
deriving Repr, DecidableEq

inductive MgrOut (α : Type) where
  | ok (r : α)
  | ipcError
  | serviceError
deriving Repr, DecidableEq

/-- Mirror of the `try/except IPCError` control flow of
`ServiceManager.request`: `first` is the outcome of the initial
`handle.session.request` (`none` = raised `IPCError`); on that error the
broken handle is stopped (best effort, exceptions swallowed) and
`_start_service` runs (`restart` false = raised `ServiceError`); the retried
`session.request` (`second`) is *not* wrapped in another handler, so its
`IPCError` propagates.  The action trace records each session request, handle
stop and service start in order. -/
def managerRequest {α : Type} (first : Option α) (restart : Bool)
    (second : Option α) : MgrOut α × List MgrAction :=
  match first with
  | some r => (.ok r, [.sessionRequest])
  | none =>
    if restart then
      match second with
      | some r => (.ok r, [.sessionRequest, .stopHandle, .startService, .sessionRequest])
      | none => (.ipcError, [.sessionRequest, .stopHandle, .startService, .sessionRequest])
    else (.serviceError, [.sessionRequest, .stopHandle, .startService])

/-- **C4** — on `IPCError` the supervisor stops the broken handle, starts a
fresh service and retries exactly once: the trace never contains more than
one `startService`; a successful first round trip performs no stop/start; and
when the single retry also hits `IPCError`, the call reports `IPCError` after
exactly one restart and exactly two session requests, with no further
attempt. -/
theorem c4_restart_once {α : Type} (first : Option α) (restart : Bool)
    (second : Option α) :
    ((managerRequest first restart second).2.count .startService ≤ 1) ∧
    ((managerRequest first restart second).2.count .sessionRequest ≤ 2) ∧
    (∀ r, first = some r →
      managerRequest first restart second = (.ok r, [.sessionRequest])) ∧
    (first = none → restart = true → second = none →
      managerRequest first restart second
        = (.ipcError, [.sessionRequest, .stopHandle, .startService, .sessionRequest])) ∧
    (∀ r, first = none → restart = true → second = some r →
      managerRequest first restart second
        = (.ok r, [.sessionRequest, .stopHandle, .startService, .sessionRequest])) := by
  cases first with
  | some r =>
    refine ⟨by simp [managerRequest, List.count_cons], by simp [managerRequest, List.count_cons], ?_, ?_, ?_⟩
    · intro r' hr
      cases hr
      rfl
    · intro h
      cases h
    · intro r' h
      cases h
  | none =>
    cases restart
    · refine ⟨?_, ?_, ?_, ?_, ?_⟩
      · simp [managerRequest, List.count_cons]
      · simp [managerRequest, List.count_cons]
      · intro r' hr
        cases hr
      · intro _ h
        cases h
      · intro r' _ h
        cases h
    · cases second with
      | some r =>
        refine ⟨?_, ?_, ?_, ?_, ?_⟩
        · simp [managerRequest, List.count_cons]
        · simp [managerRequest, List.count_cons]
        · intro r' hr
          cases hr
        · intro _ _ h
          cases h
        · intro r' _ _ h
          cases h
          rfl
      | none =>
        refine ⟨?_, ?_, ?_, ?_, ?_⟩
        · simp [managerRequest, List.count_cons]
        · simp [managerRequest, List.count_cons]
        · intro r' hr
          cases hr
        · intro _ _ _
          rfl
        · intro r' _ _ h
          cases h

/-- Witness for C4: a dead session, a successful restart and a retry that
fails again — the caller gets `IPCError` after exactly one restart. -/
theorem c4_witness :
    managerRequest (α := Nat) none true none
      = (.ipcError, [.sessionRequest, .stopHandle, .startService, .sessionRequest]) ∧
    (managerRequest (α := Nat) none true none).2.count .startService ≤ 1 :=
  ⟨(c4_restart_once (α := Nat) none true none).2.2.2.1 rfl rfl rfl,
    (c4_restart_once (α := Nat) none true none).1⟩

/-- Witness for C7: both buckets granted; the events come out in sorted name
order even though the request listed them unsorted. -/
theorem c7_witness :
    (acqNames [LockEvent.acq "a", LockEvent.acq "b"]).Sorted pyStrLe := by
  obtain ⟨res, st', evs, heq, hsort, -, -⟩ :=
    c7_acquisition_order (fun _ => true) ⟨1, []⟩ ["b", "a"]
  have hval : try_acquire (fun _ => true) ⟨1, []⟩ ["b", "a"]
      = .ok (some ["a", "b"], ⟨1, [("a", ⟨1, 1⟩), ("b", ⟨1, 1⟩)]⟩,
          [LockEvent.acq "a", LockEvent.acq "b"]) := by
    decide
  rw [hval] at heq
  simp only [Except.ok.injEq, Prod.mk.injEq] at heq
  obtain ⟨-, -, hevs⟩ := heq
  rw [← hevs] at hsort
  exact hsort

/-- Witness for C10: an all-blank request against a fully occupied pool
returns an empty guard at once, pool untouched, no lock events. -/
theorem c10_witness :
    try_acquire (fun _ => false) ⟨1, [("GPU", ⟨1, 1⟩)]⟩ ["", "  "]
      = .ok (some [], ⟨1, [("GPU", ⟨1, 1⟩)]⟩, []) := by
  obtain ⟨res, st', evs, heq, -, hblank⟩ :=
    c10_acquired_set (fun _ => false) ⟨1, [("GPU", ⟨1, 1⟩)]⟩ ["", "  "]
  obtain ⟨hres, hst, hevs⟩ := hblank (by decide)
  rw [hres, hst, hevs] at heq
  exact heq

/-! ## One-shot runner (src/core/runner.py) -/

/-- Mirror of `_parse_prefixed`: require the `PCTX:` prefix, split at the
first space, strip the tag after dropping the 5-character prefix; the payload
is everything after the first space (empty when there is none).  The
`if not parts` guard in the source is dead — `str.split` never returns an
empty list. -/
def parseTagged (line : String) : Option (String × String) :=
  let cs := line.data
  if ¬ ("PCTX:".data.isPrefixOf cs) then none
  else
    let first := cs.takeWhile (fun c => c ≠ ' ')
    let rest := cs.dropWhile (fun c => c ≠ ' ')
    let tag := pyStrip ⟨first.drop 5⟩
    let payload : String :=
      match rest with
      | _ :: r => ⟨r⟩
      | [] => ""
    some (tag, payload)

/-- The mutable accumulator of `run_one_shot`'s `on_line` closure:
`result_obj`, `err_type`, `err_msg`, `err_tb`. -/
structure RunAcc where
  resultObj : JVal
  errType : Option String
  errMsg : Option String
  errTb : Option String

/-- Mirror of `on_line`: only `RESULT` and `EXC` touch the accumulator —
`PROGRESS`/`NOTICE`/`WARN`, unknown tags, raw lines and malformed JSON only
log or fire callbacks.  `RESULT` requires a dict with `ok is True`;
`EXC` a dict with `ok is False`. -/
def onLine (acc : RunAcc) (line : String) : RunAcc :=
  match parseTagged line with
  | none => acc
  | some (tag, payload) =>
    if tag = "PROGRESS" then acc
    else if tag = "NOTICE" then acc
    else if tag = "WARN" then acc
    else if tag = "RESULT" then
      match jsonParse payload with
      | some (.obj o) =>
        match objGet o "ok" with
        | some (.bool true) => { acc with resultObj := (objGet o "result").getD .null }
        | _ => acc
      | _ => acc
    else if tag = "EXC" then
      match jsonParse payload with
      | some (.obj o) =>
        match objGet o "ok" with
        | some (.bool false) =>
          { acc with
            errType := some (pyStr (pyOr (objGet o "error_type") (.str "Error"))),
            errMsg := some (pyStr (pyOr (objGet o "error_message") (.str ""))),
            errTb := some (pyStr (pyOr (objGet o "traceback") (.str ""))) }
        | _ => acc
      | _ => acc
    else acc

def runAcc (lines : List String) : RunAcc :=
  lines.foldl onLine ⟨.null, none, none, none⟩

/-- `if err_type:` — truthiness of the captured exception type. -/
def errTruthy (acc : RunAcc) : Bool :=
  match acc.errType with
  | some et => et ≠ ""
  | none => false

/-- One observation of the poll loop: the outcome of `proc.wait(0.15)`, the
wall-clock elapsed at the subsequent timeout check, and whether
`cancel_flag_path.exists()`. -/
structure Tick where
  rcNow : Option Int
  elapsed : ℚ
  cancelFlag : Bool

inductive LoopExit where
  | timedOut
  | cancelled
  | exited (rc : Int)
deriving Repr, DecidableEq

/-- Mirror of the `while True:` poll loop of `run_one_shot`: each tick reads
the process state, then checks the timeout *before* the cancel flag *before*
the exit code — so runner-caused termination takes precedence even on a tick
where the process has already exited.  `none` means the provided observations
end with the loop still running. -/
def pollLoop (timeout : Option ℚ) : List Tick → Option LoopExit
  | [] => none
  | t :: rest =>
    let over : Bool := match timeout with
      | some tmo => t.elapsed > tmo
      | none => false
    if over then some .timedOut
    else if t.cancelFlag then some .cancelled
    else
      match t.rcNow with
      | some rc => some (.exited rc)
      | none => pollLoop timeout rest

inductive RunStatus where
  | ok
  | error
  | timeout
  | cancelled
deriving Repr, DecidableEq

/-- The fields of the terminal `OneShotRunResult` the claims speak about. -/
structure OneShotOutcome where
  status : RunStatus
  result : JVal
  error_type : Option String

/-- Mirror of `run_one_shot` from the spawn on: the reader thread classifies
every output line into the accumulator (it is joined before the accumulator
is read); the poll loop decides how the run ends; the terminal record is OK
only for a zero exit code with no captured exception payload, ERROR
otherwise, with runner-raised `TimeoutExceeded`/`CancelledError` taking
precedence as TIMEOUT/CANCELLED (those records carry `result=None`).  The
normal-exit record carries `result_obj` whatever the status. -/
def run_one_shot (timeout : Option ℚ) (lines : List String) (ticks : List Tick) :
    Option OneShotOutcome :=
  match pollLoop timeout ticks with
  | none => none
  | some .timedOut => some ⟨.timeout, .null, some "TimeoutExceeded"⟩
  | some .cancelled => some ⟨.cancelled, .null, some "Cancelled"⟩
  | some (.exited rc) =>
    if errTruthy (runAcc lines) then
      some ⟨.error, (runAcc lines).resultObj, (runAcc lines).errType⟩
    else if rc ≠ 0 then some ⟨.error, (runAcc lines).resultObj, none⟩
    else some ⟨.ok, (runAcc lines).resultObj, none⟩

/-- **C5** — a one-shot run's terminal status is OK exactly when the worker
exited with code zero and no exception payload was captured; any other exited
combination is ERROR; runner-caused termination takes precedence as TIMEOUT
or CANCELLED; and an OK record carries the accumulated `RESULT` payload. -/
theorem c5_one_shot_status (timeout : Option ℚ) (lines : List String)
    (ticks : List Tick) (out : OneShotOutcome)
    (h : run_one_shot timeout lines ticks = some out) :
    (out.status = .ok ↔
      (pollLoop timeout ticks = some (.exited 0) ∧ errTruthy (runAcc lines) = false)) ∧
    (pollLoop timeout ticks = some .timedOut → out.status = .timeout) ∧
    (pollLoop timeout ticks = some .cancelled → out.status = .cancelled) ∧
    (∀ rc, pollLoop timeout ticks = some (.exited rc) →
      (errTruthy (runAcc lines) = true ∨ rc ≠ 0) → out.status = .error) ∧
    (out.status = .ok → out.result = (runAcc lines).resultObj) := by
  cases hp : pollLoop timeout ticks with
  | none =>
    have hv : run_one_shot timeout lines ticks = none := by
      unfold run_one_shot
      rw [hp]
    rw [hv] at h
    cases h
  | some ex =>
    cases ex with
    | timedOut =>
      have hv : run_one_shot timeout lines ticks
          = some ⟨.timeout, .null, some "TimeoutExceeded"⟩ := by
        unfold run_one_shot
        rw [hp]
      rw [hv] at h
      simp only [Option.some.injEq] at h
      subst h
      refine ⟨by simp, fun _ => rfl, by simp, ?_, by simp⟩
      intro rc hrc
      simp [hp] at hrc
    | cancelled =>
      have hv : run_one_shot timeout lines ticks
          = some ⟨.cancelled, .null, some "Cancelled"⟩ := by
        unfold run_one_shot
        rw [hp]
      rw [hv] at h
      simp only [Option.some.injEq] at h
      subst h
      refine ⟨by simp, by simp [hp], fun _ => rfl, ?_, by simp⟩
      intro rc hrc
      simp [hp] at hrc
    | exited rc =>
      have hv : run_one_shot timeout lines ticks
          = (if errTruthy (runAcc lines) then
              some ⟨.error, (runAcc lines).resultObj, (runAcc lines).errType⟩
            else if rc ≠ 0 then some ⟨.error, (runAcc lines).resultObj, none⟩
            else some ⟨.ok, (runAcc lines).resultObj, none⟩) := by
        unfold run_one_shot
        rw [hp]
      rw [hv] at h
      by_cases herr : errTruthy (runAcc lines) = true
      · rw [if_pos herr] at h
        simp only [Option.some.injEq] at h
        subst h
        exact ⟨by simp [hp, herr], by simp [hp], by simp [hp], fun _ _ _ => rfl, by simp⟩
      · rw [if_neg herr] at h
        have herrf : errTruthy (runAcc lines) = false := by
          simpa using herr
        by_cases hrc : rc = 0
        · subst hrc
          rw [if_neg (by simp)] at h
          simp only [Option.some.injEq] at h
          subst h
          refine ⟨by simp [hp, herrf], by simp [hp], by simp [hp], ?_, fun _ => rfl⟩
          intro rc' h1 h2
          cases Option.some.inj h1
          rcases h2 with h2 | h2
          · rw [herrf] at h2
            cases h2
          · exact absurd rfl h2
        · rw [if_pos hrc] at h
          simp only [Option.some.injEq] at h
          subst h
          exact ⟨by simp [hp, hrc], by simp [hp], by simp [hp], fun _ _ _ => rfl, by simp⟩

/-- The claim's concrete example line. -/
def c5Line : String := "PCTX:RESULT \x7b\"ok\":true,\"result\":\"hello\"\x7d"

/-- Witness for C5: a worker that writes the tagged RESULT line
`{"ok":true,"result":"hello"}` and exits 0 yields status OK with result
`"hello"`. -/
theorem c5_witness :
    run_one_shot none [c5Line] [⟨some 0, 1, false⟩]
      = some ⟨.ok, .str "hello", none⟩ ∧
    ((OneShotOutcome.mk .ok (.str "hello") none).status = .ok ↔
      (pollLoop none [⟨some 0, 1, false⟩] = some (.exited 0) ∧
        errTruthy (runAcc [c5Line]) = false)) ∧
    (OneShotOutcome.mk .ok (.str "hello") none).result = (runAcc [c5Line]).resultObj := by
  have hrun : run_one_shot none [c5Line] [⟨some 0, 1, false⟩]
      = some ⟨.ok, .str "hello", none⟩ := rfl
  have h := c5_one_shot_status none [c5Line] [⟨some 0, 1, false⟩]
    ⟨.ok, .str "hello", none⟩ hrun
  exact ⟨hrun, h.1, h.2.2.2.2 rfl⟩

end PContext
